import Mathlib

/-!
# The request decoder of go-redis-server (`parser.go`)

A shallow embedding of `parseRequest`, `readInline` and `readArgument`
together with the parts of the Go standard library they call
(`bufio.Reader`, `fmt.Sscanf`, `strings.Trim`, `strings.Split`,
`strings.ToLower`, `io.LimitReader`, `ioutil.ReadAll`).

Conventions of the embedding:

* a byte is a natural number (below 256 on every real input), a Go `string`
  or `[]byte` is a `List Nat`;
* a `bufio.Reader` is the list of bytes it will still deliver together with
  the error its source reports once those bytes are used up;
* `int` is the 64-bit Go `int`; the only subtraction that can overflow
  (`argsCount-1`) wraps explicitly;
* a run-time panic is an outcome of its own (`Outcome.panic`);
* `make([][]byte, n)` panics, as `makeslice` of the runtime does, on a
  negative length and on a length whose size in bytes is above `maxAlloc`;
  an allocation within that limit succeeds (a machine that runs out of memory
  is outside the model);
* package `fmt` is the one of Go 1.6 and later (the treatment of spaces and
  newlines by `Sscanf` changed in that release);
* logging (`Debugf`) has no effect on the result and is left out.
-/

namespace Redis

/-! ## Errors and results -/

/-- The error a byte source reports when it has no more bytes: `io.EOF` or
some other I/O error (identified by a number). -/
inductive SrcErr where
  | eof
  | io (code : Nat)
  deriving DecidableEq, Repr

/-- The error values `parseRequest` can return: an error of the source passed
on unchanged, or one of the three `Mailformed request` errors built by
`malformed`, `malformedLength` and `malformedMissingCRLF`. -/
inductive Err where
  | src (e : SrcErr)
  | malformed (expected : String) (got : List Nat)
  | malformedLength (expected : Int) (got : Int)
  | malformedMissingCRLF
  deriving DecidableEq, Repr

/-- `malformed(expected, got)` of `parser.go`. -/
def malformed (expected : String) (got : List Nat) : Err :=
  Err.malformed expected got

/-- `malformedLength(expected, got)` of `parser.go`. -/
def malformedLength (expected : Int) (got : Int) : Err :=
  Err.malformedLength expected got

/-- `malformedMissingCRLF()` of `parser.go`. -/
def malformedMissingCRLF : Err :=
  Err.malformedMissingCRLF

/-- The `Request` value: the command name and the arguments. -/
structure Request where
  name : List Nat
  args : List (List Nat)
  deriving DecidableEq, Repr

/-- What a call does: return a value, return an error, or panic. -/
inductive Outcome (α : Type) where
  | ok (a : α)
  | error (e : Err)
  | panic (msg : String)
  deriving DecidableEq, Repr

/-- The bytes of an ASCII literal. -/
def ascii (s : String) : List Nat :=
  s.toList.map Char.toNat

/-! ## `bufio.Reader` -/

/-- A buffered reader: the bytes it will still deliver, and the error every
read reports once they are used up. -/
structure Reader where
  buf : List Nat
  err : SrcErr
  deriving DecidableEq, Repr

/-- Cut a byte sequence after the first occurrence of `delim`; `none` when
`delim` does not occur. -/
def splitDelim (delim : Nat) : List Nat → Option (List Nat × List Nat)
  | [] => none
  | b :: bs =>
    if b = delim then some ([b], bs)
    else
      match splitDelim delim bs with
      | some (line, rest) => some (b :: line, rest)
      | none => none

/-- `(*bufio.Reader).ReadString(delim)`: the bytes up to and including the
first `delim`; when the source ends before a `delim`, the bytes read so far
and the error of the source. -/
def Reader.ReadString (r : Reader) (delim : Nat) :
    (List Nat × Option SrcErr) × Reader :=
  match splitDelim delim r.buf with
  | some (line, rest) => ((line, none), { r with buf := rest })
  | none => ((r.buf, some r.err), { r with buf := [] })

/-- `(*bufio.Reader).ReadByte()`. -/
def Reader.ReadByte (r : Reader) : Except SrcErr Nat × Reader :=
  match r.buf with
  | [] => (Except.error r.err, r)
  | b :: bs => (Except.ok b, { r with buf := bs })

/-- `ioutil.ReadAll(io.LimitReader(r, n))`: a limit `n <= 0` reads nothing;
otherwise up to `n` bytes are read, the end of the source (`io.EOF`) is not an
error, any other error of the source is returned with the bytes read. -/
def Reader.ReadAllLimit (r : Reader) (n : Int) :
    (List Nat × Option SrcErr) × Reader :=
  if n ≤ 0 then (([], none), r)
  else if n.toNat ≤ r.buf.length then
    ((r.buf.take n.toNat, none), { r with buf := r.buf.drop n.toNat })
  else
    match r.err with
    | SrcErr.eof => ((r.buf, none), { r with buf := [] })
    | e => ((r.buf, some e), { r with buf := [] })

/-! ## `unicode/utf8` and `fmt.Sscanf` -/

/-- `utf8.RuneError`. -/
def RuneError : Nat := 0xFFFD

/-- `utf8.DecodeRune`: the rune at the head of a byte sequence and its width.
An invalid or incomplete encoding gives `(RuneError, 1)`. The masks and shifts
of the Go code are written as the subtractions and multiplications they amount
to on the accepted byte ranges. -/
def decodeRune : List Nat → Nat × Nat
  | [] => (RuneError, 0)
  | p0 :: rest =>
    if p0 < 0x80 then (p0, 1)
    else if p0 < 0xC2 then (RuneError, 1)
    else if p0 ≤ 0xDF then
      match rest with
      | b1 :: _ =>
        if 0x80 ≤ b1 ∧ b1 ≤ 0xBF then ((p0 - 0xC0) * 64 + (b1 - 0x80), 2)
        else (RuneError, 1)
      | _ => (RuneError, 1)
    else if p0 ≤ 0xEF then
      match rest with
      | b1 :: b2 :: _ =>
        if (if p0 = 0xE0 then 0xA0 else 0x80) ≤ b1
            ∧ b1 ≤ (if p0 = 0xED then 0x9F else 0xBF) then
          if 0x80 ≤ b2 ∧ b2 ≤ 0xBF then
            ((p0 - 0xE0) * 4096 + (b1 - 0x80) * 64 + (b2 - 0x80), 3)
          else (RuneError, 1)
        else (RuneError, 1)
      | _ => (RuneError, 1)
    else if p0 ≤ 0xF4 then
      match rest with
      | b1 :: b2 :: b3 :: _ =>
        if (if p0 = 0xF0 then 0x90 else 0x80) ≤ b1
            ∧ b1 ≤ (if p0 = 0xF4 then 0x8F else 0xBF) then
          if 0x80 ≤ b2 ∧ b2 ≤ 0xBF then
            if 0x80 ≤ b3 ∧ b3 ≤ 0xBF then
              ((p0 - 0xF0) * 262144 + (b1 - 0x80) * 4096 + (b2 - 0x80) * 64
                + (b3 - 0x80), 4)
            else (RuneError, 1)
          else (RuneError, 1)
        else (RuneError, 1)
      | _ => (RuneError, 1)
    else (RuneError, 1)

/-- The runes a scanner reads from a byte sequence, one `decodeRune` after the
other; `skip` is the number of bytes still belonging to the rune just read. -/
def runesAux : Nat → List Nat → List Nat
  | _, [] => []
  | skip + 1, _ :: bs => runesAux skip bs
  | 0, b :: bs => (decodeRune (b :: bs)).1 :: runesAux ((decodeRune (b :: bs)).2 - 1) bs

/-- The runes of a string, as `readRune.ReadRune` of package `fmt` delivers
them. -/
def runes (s : List Nat) : List Nat :=
  runesAux 0 s

/-- `hugeWid` of package `fmt`: a scan reads at most this many runes. -/
def hugeWid : Nat := 1073741824

/-- `isSpace` of package `fmt` (the table `space`). -/
def isSpace (r : Nat) : Bool :=
  (0x09 ≤ r && r ≤ 0x0D) || r == 0x20 || r == 0x85 || r == 0xA0 || r == 0x1680
    || (0x2000 ≤ r && r ≤ 0x200A) || r == 0x2028 || r == 0x2029 || r == 0x202F
    || r == 0x205F || r == 0x3000

/-- A decimal digit, one of the runes of `decimalDigits`. -/
def isDigit (r : Nat) : Bool :=
  0x30 ≤ r && r ≤ 0x39

/-- `(*ss).SkipSpace()` for `Sscanf` (a newline is not a space): skips spaces
and a carriage return that stands before a newline; a newline is the error
`unexpected newline` (`none`). -/
def SkipSpace : List Nat → Option (List Nat)
  | [] => some []
  | r :: rs =>
    if r = 0x0D ∧ rs.head? = some 0x0A then SkipSpace rs
    else if r = 0x0A then none
    else if isSpace r = false then some (r :: rs)
    else SkipSpace rs

/-- The value of a run of decimal digits, as `strconv.ParseUint` computes
it. -/
def digitsValue (ds : List Nat) : Nat :=
  ds.foldl (fun acc d => acc * 10 + (d - 0x30)) 0

/-- `strconv.ParseInt(tok, 10, 64)` on a token made of an optional sign and a
non-empty run of digits: `none` is the range error. -/
def ParseInt (neg : Bool) (ds : List Nat) : Option Int :=
  if neg then
    if digitsValue ds > 2 ^ 63 then none else some (-(digitsValue ds : Int))
  else
    if digitsValue ds ≥ 2 ^ 63 then none else some (digitsValue ds : Int)

/-- `(*ss).scanInt('d', 64)`: skip spaces, require input, accept one sign,
require at least one digit, take all the digits that follow, convert. Returns
the integer and the runes after it. -/
def scanInt (rs : List Nat) : Option (Int × List Nat) :=
  match SkipSpace rs with
  | none => none
  | some [] => none
  | some (r :: rest) =>
    let neg := decide (r = 0x2D)
    let ds := if r = 0x2D ∨ r = 0x2B then rest else r :: rest
    if ds.takeWhile isDigit = [] then none
    else
      match ParseInt neg (ds.takeWhile isDigit) with
      | none => none
      | some v => some (v, ds.dropWhile isDigit)

/-- `fmt.Sscanf(line, "c%d\r", &n)` for a literal `c` that is neither a space
nor a percent sign (`*` in `parseRequest`, `$` in `readArgument`): `some n`
when the scan succeeds, `none` when it returns an error. The first rune must be
`c`; spaces are skipped; an integer is scanned; the carriage return of the
format asks for the end of the input or a space that is not a newline. -/
def Sscanf (c : Nat) (line : List Nat) : Option Int :=
  match (runes line).take hugeWid with
  | [] => none
  | r :: rs =>
    if r ≠ c then none
    else
      match SkipSpace rs with
      | none => none
      | some rs1 =>
        match scanInt rs1 with
        | none => none
        | some (v, rs2) =>
          match rs2 with
          | [] => some v
          | x :: _ => if isSpace x = true ∧ x ≠ 0x0A then some v else none

/-! ## `strings` -/

/-- The cutset of `strings.Trim(buf, "\r\n")`. -/
def isCRLF (b : Nat) : Bool :=
  b == 0x0D || b == 0x0A

/-- `strings.Trim(s, "\r\n")`: removes the leading and the trailing bytes that
are a carriage return or a newline. -/
def Trim (s : List Nat) : List Nat :=
  ((s.dropWhile isCRLF).reverse.dropWhile isCRLF).reverse

/-- `strings.Split(s, sep)` for a one-byte separator: the pieces between the
separators, `cur` being the piece under construction (reversed). -/
def splitAux (sep : Nat) : List Nat → List Nat → List (List Nat)
  | cur, [] => [cur.reverse]
  | cur, b :: bs =>
    if b = sep then cur.reverse :: splitAux sep [] bs
    else splitAux sep (b :: cur) bs

/-- `strings.Split(s, " ")` and the like. -/
def Split (s : List Nat) (sep : Nat) : List (List Nat) :=
  splitAux sep [] s

/-- The lower-case form of one ASCII byte. -/
def lowerByte (b : Nat) : Nat :=
  if 0x41 ≤ b ∧ b ≤ 0x5A then b + 0x20 else b

/-- `strings.ToLower(s)`: on a string of ASCII bytes the letters `A`..`Z` are
replaced by `a`..`z`; a string with a byte from 0x80 on goes through
`strings.Map(unicode.ToLower, s)`, which is the parameter `uni` (the Unicode
tables are not part of this development). -/
def ToLower (uni : List Nat → List Nat) (s : List Nat) : List Nat :=
  if s.all (fun b => decide (b < 0x80)) then s.map lowerByte else uni s

/-! ## `parser.go` -/

/-- `readInline(buf)`: trim, split on spaces, the first token lower-cased is
the name, the other tokens are the arguments. `tab[0]` panics on an empty
`tab`. -/
def readInline (uni : List Nat → List Nat) (buf : List Nat) : Outcome Request :=
  match Split (Trim buf) 0x20 with
  | [] => Outcome.panic "index out of range"
  | t0 :: rest => Outcome.ok { name := ToLower uni t0, args := rest }

/-- `readArgument(r)`: the header line `$<size>`, then `size` bytes, then a
carriage return and a newline. -/
def readArgument (r : Reader) : Except Err (List Nat) × Reader :=
  match r.ReadString 0x0A with
  | ((line, some _), r1) => (Except.error (malformed "$<argumentLength>" line), r1)
  | ((line, none), r1) =>
    match Sscanf 0x24 line with
    | none => (Except.error (malformed "$<argumentSize>" line), r1)
    | some argSize =>
      match r1.ReadAllLimit argSize with
      | ((_, some e), r2) => (Except.error (Err.src e), r2)
      | ((data, none), r2) =>
        if (data.length : Int) ≠ argSize then
          (Except.error (malformedLength argSize data.length), r2)
        else
          match r2.ReadByte with
          | (Except.error _, r3) => (Except.error malformedMissingCRLF, r3)
          | (Except.ok b, r3) =>
            if b ≠ 0x0D then (Except.error malformedMissingCRLF, r3)
            else
              match r3.ReadByte with
              | (Except.error _, r4) => (Except.error malformedMissingCRLF, r4)
              | (Except.ok b2, r4) =>
                if b2 ≠ 0x0A then (Except.error malformedMissingCRLF, r4)
                else (Except.ok data, r4)

/-- The loop of `parseRequest` that fills `args`: `n` calls of `readArgument`,
stopping at the first error. -/
def readArgs : Nat → Reader → Except Err (List (List Nat)) × Reader
  | 0, r => (Except.ok [], r)
  | n + 1, r =>
    match readArgument r with
    | (Except.error e, r1) => (Except.error e, r1)
    | (Except.ok a, r1) =>
      match readArgs n r1 with
      | (Except.error e, r2) => (Except.error e, r2)
      | (Except.ok rest, r2) => (Except.ok (a :: rest), r2)

/-- A 64-bit `int` result: the value wrapped into `-2^63 .. 2^63-1`. -/
def wrapInt (x : Int) : Int :=
  (x + 2 ^ 63) % 2 ^ 64 - 2 ^ 63

/-- `maxAlloc` of the Go runtime, the largest size in bytes of one allocation:
`1 << 48` on the 64-bit platforms (48 bits of heap address). -/
def maxAlloc : Nat := 281474976710656

/-- The size in bytes of one element of `[][]byte`: a slice header of three
64-bit words. -/
def sliceHeaderSize : Nat := 24

/-- The check of `makeslice` for `make([][]byte, len)`: the runtime panics with
`makeslice: len out of range` when the length is negative or when the size
`sliceHeaderSize * len` is above `maxAlloc`. -/
def makeslicePanics (len : Int) : Prop :=
  len < 0 ∨ (maxAlloc : Int) < (sliceHeaderSize : Int) * len

instance (len : Int) : Decidable (makeslicePanics len) :=
  inferInstanceAs (Decidable (len < 0 ∨ (maxAlloc : Int) < (sliceHeaderSize : Int) * len))

/-- `parseRequest(r)`: the outcome and the reader as the call leaves it. -/
def parseRequest (uni : List Nat → List Nat) (r : Reader) : Outcome Request × Reader :=
  match r.ReadString 0x0A with
  | ((_, some e), r1) => (Outcome.error (Err.src e), r1)
  | ((line, none), r1) =>
    match Sscanf 0x2A line with
    | none =>
      match readInline uni line with
      | Outcome.error _ => (Outcome.error (malformed "*<numberOfArguments>" line), r1)
      | res => (res, r1)
    | some argsCount =>
      match readArgument r1 with
      | (Except.error e, r2) => (Outcome.error e, r2)
      | (Except.ok firstArg, r2) =>
        if makeslicePanics (wrapInt (argsCount - 1)) then
          (Outcome.panic "makeslice: len out of range", r2)
        else
          match readArgs (wrapInt (argsCount - 1)).toNat r2 with
          | (Except.error e, r3) => (Outcome.error e, r3)
          | (Except.ok args, r3) =>
            (Outcome.ok { name := ToLower uni firstArg, args := args }, r3)

/-! ## The wire format -/

/-- The digits of `n`, most significant first, put in front of `acc`; `fuel`
bounds the number of digits. -/
def decimalAux : Nat → Nat → List Nat → List Nat
  | 0, _, acc => acc
  | fuel + 1, n, acc =>
    if n < 10 then (n + 0x30) :: acc
    else decimalAux fuel (n / 10) ((n % 10 + 0x30) :: acc)

/-- The decimal numeral of a natural number, as a client writes a count or a
length. -/
def decimal (n : Nat) : List Nat :=
  decimalAux (n + 1) n []

/-- One framed argument: `$<len>\r\n<bytes>\r\n`. -/
def encodeArg (a : List Nat) : List Nat :=
  0x24 :: decimal a.length ++ [0x0D, 0x0A] ++ a ++ [0x0D, 0x0A]

/-- A sequence of framed arguments. -/
def encodeArgs : List (List Nat) → List Nat
  | [] => []
  | a :: rest => encodeArg a ++ encodeArgs rest

/-- A framed request: `*<N>\r\n` followed by the `N` framed arguments. -/
def encodeRequest (as : List (List Nat)) : List Nat :=
  0x2A :: decimal as.length ++ [0x0D, 0x0A] ++ encodeArgs as

/-- The tokens of an inline request joined by single spaces. -/
def joinTokens : List (List Nat) → List Nat
  | [] => []
  | [t] => t
  | t :: u :: ts => t ++ 0x20 :: joinTokens (u :: ts)

/-- An inline request: the tokens joined by single spaces, terminated by
`\r\n` (`crlf = true`) or by `\n` alone. -/
def encodeInline (toks : List (List Nat)) (crlf : Bool) : List Nat :=
  joinTokens toks ++ (if crlf then [0x0D, 0x0A] else [0x0A])

/-- A well-formed request on the wire, following the specification of the wire
format: a framed request (a first argument and the other arguments) or an
inline request (a first token, the other tokens, and the line terminator). -/
inductive Wire where
  | framed (a : List Nat) (as : List (List Nat))
  | inline (t : List Nat) (ts : List (List Nat)) (crlf : Bool)

/-- The bytes of a request on the wire. -/
def Wire.bytes : Wire → List Nat
  | Wire.framed a as => encodeRequest (a :: as)
  | Wire.inline t ts crlf => encodeInline (t :: ts) crlf

/-- The request a wire encoding stands for, following the specification: the
first argument or token lower-cased is the name, the others are the
arguments. -/
def Wire.request (uni : List Nat → List Nat) : Wire → Request
  | Wire.framed a as => { name := ToLower uni a, args := as }
  | Wire.inline t ts _ => { name := ToLower uni t, args := ts }

/-- Well-formedness of a request on the wire: the arguments of a framed request
after the first fit a slice that `make` allocates and every argument has a
length in the range of `int`; the tokens of an inline request contain no space,
carriage return or newline and the first does not begin with `*`. -/
def Wire.WellFormed : Wire → Prop
  | Wire.framed a as =>
    sliceHeaderSize * as.length ≤ maxAlloc ∧ ∀ x ∈ a :: as, x.length < 2 ^ 63
  | Wire.inline t ts _ =>
    (∀ x ∈ t :: ts, ∀ b ∈ x, b ≠ 0x20 ∧ b ≠ 0x0D ∧ b ≠ 0x0A) ∧ t.head? ≠ some 0x2A

/-- The header lines that `Sscanf` with the format `c%d\r` accepts, and the
value scanned: the runes read are `c`, then any number of spaces other than a
newline, then an optional sign, then one or more decimal digits whose signed
value `v` is in the range of `int`, and then the end of what is read or a space
other than a newline. -/
def HeaderForm (c : Nat) (line : List Nat) (v : Int) : Prop :=
  ∃ (ws sgn ds rest : List Nat),
    (runes line).take hugeWid = c :: (ws ++ (sgn ++ (ds ++ rest)))
      ∧ (∀ w ∈ ws, isSpace w = true ∧ w ≠ 0x0A)
      ∧ (sgn = [] ∨ sgn = [0x2B] ∨ sgn = [0x2D])
      ∧ ds ≠ [] ∧ (∀ d ∈ ds, isDigit d = true)
      ∧ (∀ x ∈ rest.head?, isSpace x = true ∧ x ≠ 0x0A)
      ∧ (if sgn = [0x2D] then digitsValue ds ≤ 2 ^ 63 ∧ v = -(digitsValue ds : Int)
          else digitsValue ds < 2 ^ 63 ∧ v = (digitsValue ds : Int))

/-- One argument record as `readArgument` finds it in the source: the header
line, the payload, and `\r\n`. -/
def recordBytes (rec : List Nat × List Nat) : List Nat :=
  rec.1 ++ rec.2 ++ [0x0D, 0x0A]

/-- A sequence of argument records, one after the other. -/
def recordsBytes : List (List Nat × List Nat) → List Nat
  | [] => []
  | rec :: rest => recordBytes rec ++ recordsBytes rest

/-- A record whose header is a line ending in its only newline and declaring,
by the scan of `$%d\r`, the length of the payload. -/
def RecordOk (rec : List Nat × List Nat) : Prop :=
  (∃ h, rec.1 = h ++ [0x0A] ∧ 0x0A ∉ h) ∧ Sscanf 0x24 rec.1 = some (rec.2.length : Int)

/-! ## Lines, numerals and the scan of a header -/

theorem splitDelim_line (d : Nat) (l rest : List Nat) (h : d ∉ l) :
    splitDelim d (l ++ d :: rest) = some (l ++ [d], rest) := by
  induction l with
  | nil => simp [splitDelim]
  | cons b bs ih =>
    have hb : b ≠ d := fun e => h (by simp [e])
    have hbs : d ∉ bs := fun e => h (by simp [e])
    simp [splitDelim, hb, ih hbs]

theorem splitDelim_none (d : Nat) (l : List Nat) (h : d ∉ l) :
    splitDelim d l = none := by
  induction l with
  | nil => simp [splitDelim]
  | cons b bs ih =>
    have hb : b ≠ d := fun e => h (by simp [e])
    have hbs : d ∉ bs := fun e => h (by simp [e])
    simp [splitDelim, hb, ih hbs]

theorem runesAux_ascii (s : List Nat) (h : ∀ b ∈ s, b < 0x80) : runesAux 0 s = s := by
  induction s with
  | nil => rfl
  | cons b bs ih =>
    have hb : b < 0x80 := h b (by simp)
    have hbs : ∀ x ∈ bs, x < 0x80 := fun x hx => h x (by simp [hx])
    simp [runesAux, decodeRune, hb, ih hbs]

theorem runes_ascii (s : List Nat) (h : ∀ b ∈ s, b < 0x80) : runes s = s :=
  runesAux_ascii s h

theorem decimalAux_digits (fuel n : Nat) (acc : List Nat) (h0 : n ≠ 0) (hf : n < fuel) :
    decimalAux fuel n acc = (Nat.digits 10 n).reverse.map (fun d => d + 0x30) ++ acc := by
  induction fuel generalizing n acc with
  | zero => omega
  | succ f ih =>
    unfold decimalAux
    by_cases h : n < 10
    · simp only [h, if_true]
      rw [Nat.digits_of_lt 10 n h0 h]
      simp
    · simp only [h, if_false]
      have h1 : n / 10 ≠ 0 := by omega
      have h2 : n / 10 < f := by omega
      rw [ih (n / 10) _ h1 h2]
      rw [Nat.digits_def' (by norm_num : 1 < 10) (by omega : 0 < n)]
      simp

theorem decimal_eq (n : Nat) :
    decimal n = if n = 0 then [0x30] else (Nat.digits 10 n).reverse.map (fun d => d + 0x30) := by
  split
  · subst_vars; rfl
  · rename_i h
    unfold decimal
    rw [decimalAux_digits (n + 1) n [] h (by omega)]
    simp

theorem digitsValue_reverse (L : List Nat) :
    digitsValue (L.reverse.map (fun d => d + 0x30)) = Nat.ofDigits 10 L := by
  unfold digitsValue
  rw [List.foldl_map, List.foldl_reverse]
  induction L with
  | nil => rfl
  | cons a as ih =>
    simp only [List.foldr_cons, Nat.ofDigits_cons]
    rw [ih]
    simp
    ring

theorem decimal_value (n : Nat) : digitsValue (decimal n) = n := by
  rw [decimal_eq]
  split
  · subst_vars; rfl
  · rw [digitsValue_reverse, Nat.ofDigits_digits]

theorem decimal_isDigit (n : Nat) : ∀ d ∈ decimal n, isDigit d = true := by
  intro d hd
  rw [decimal_eq] at hd
  split at hd
  · simp at hd; subst hd; rfl
  · simp only [List.mem_map, List.mem_reverse] at hd
    obtain ⟨x, hx, rfl⟩ := hd
    have := Nat.digits_lt_base (by norm_num : 1 < 10) hx
    simp [isDigit]; omega

theorem decimal_ne_nil (n : Nat) : decimal n ≠ [] := by
  rw [decimal_eq]
  split
  · simp
  · rename_i h
    simp [Nat.digits_ne_nil_iff_ne_zero, h]

theorem decimal_length (n : Nat) (h : n < 2 ^ 63) : (decimal n).length ≤ 19 := by
  rw [decimal_eq]
  split
  · simp
  · simp only [List.length_map, List.length_reverse]
    rename_i h0
    rw [Nat.digits_len 10 n (by norm_num) h0]
    have : Nat.log 10 n < 19 := Nat.log_lt_of_lt_pow h0 (by omega)
    omega

theorem takeWhile_append_stop (p : Nat → Bool) (l t : List Nat) (x : Nat)
    (hl : ∀ a ∈ l, p a = true) (hx : p x = false) :
    (l ++ x :: t).takeWhile p = l := by
  induction l with
  | nil => simp [List.takeWhile, hx]
  | cons a as ih =>
    have ha : p a = true := hl a (by simp)
    have has : ∀ b ∈ as, p b = true := fun b hb => hl b (by simp [hb])
    simp [List.takeWhile, ha, ih has]

theorem dropWhile_append_stop (p : Nat → Bool) (l t : List Nat) (x : Nat)
    (hl : ∀ a ∈ l, p a = true) (hx : p x = false) :
    (l ++ x :: t).dropWhile p = x :: t := by
  induction l with
  | nil => simp [List.dropWhile, hx]
  | cons a as ih =>
    have ha : p a = true := hl a (by simp)
    have has : ∀ b ∈ as, p b = true := fun b hb => hl b (by simp [hb])
    simp [List.dropWhile, ha, ih has]

theorem isDigit_bounds {d : Nat} (h : isDigit d = true) : 0x30 ≤ d ∧ d ≤ 0x39 := by
  simpa [isDigit] using h

theorem isSpace_of_isDigit {d : Nat} (h : isDigit d = true) : isSpace d = false := by
  have := isDigit_bounds h
  simp [isSpace]
  omega

theorem SkipSpace_digit (d : Nat) (rest : List Nat) (h : isDigit d = true) :
    SkipSpace (d :: rest) = some (d :: rest) := by
  have hb := isDigit_bounds h
  have h1 : d ≠ 0x0D := by omega
  have h2 : d ≠ 0x0A := by omega
  simp [SkipSpace, h1, h2, isSpace_of_isDigit h]

theorem SkipSpace_digits (ds t : List Nat) (hne : ds ≠ [])
    (hall : ∀ d ∈ ds, isDigit d = true) :
    SkipSpace (ds ++ t) = some (ds ++ t) := by
  cases ds with
  | nil => exact absurd rfl hne
  | cons d ds => exact SkipSpace_digit d _ (hall d (by simp))

theorem scanInt_digits (ds : List Nat) (hne : ds ≠ [])
    (hall : ∀ d ∈ ds, isDigit d = true) (x : Nat) (t : List Nat)
    (hx : isDigit x = false) :
    scanInt (ds ++ x :: t) = (ParseInt false ds).map (fun v => (v, x :: t)) := by
  have htake := takeWhile_append_stop isDigit ds t x hall hx
  have hdrop := dropWhile_append_stop isDigit ds t x hall hx
  have hskip := SkipSpace_digits ds (x :: t) hne hall
  cases ds with
  | nil => exact absurd rfl hne
  | cons d ds =>
    have hb := isDigit_bounds (hall d (by simp))
    have h1 : ¬ (d = 0x2D ∨ d = 0x2B) := by omega
    have h2 : d ≠ 0x2D := by omega
    unfold scanInt
    rw [hskip]
    simp only [List.cons_append] at htake hdrop ⊢
    simp only [h1, if_false, htake, hdrop]
    cases hP : ParseInt (decide (d = 0x2D)) (d :: ds) with
    | none =>
      simp only [h2, decide_False] at hP
      simp [hP]
    | some v =>
      simp only [h2, decide_False] at hP
      simp [hP]

theorem ParseInt_decimal (n : Nat) (hn : n < 2 ^ 63) :
    ParseInt false (decimal n) = some (n : Int) := by
  have hv := decimal_value n
  have h : ¬ (n ≥ 2 ^ 63) := by omega
  unfold ParseInt
  rw [hv]
  simp only [Bool.false_eq_true, if_false, h]

theorem scanInt_decimal (n : Nat) (hn : n < 2 ^ 63) (x : Nat) (t : List Nat)
    (hx : isDigit x = false) :
    scanInt (decimal n ++ x :: t) = some ((n : Int), x :: t) := by
  rw [scanInt_digits _ (decimal_ne_nil n) (decimal_isDigit n) x t hx,
    ParseInt_decimal n hn]
  rfl

theorem Sscanf_header (c n : Nat) (hc : c < 0x80) (hn : n < 2 ^ 63) :
    Sscanf c (c :: decimal n ++ [0x0D, 0x0A]) = some (n : Int) := by
  have hdig := decimal_isDigit n
  have hlen := decimal_length n hn
  have hascii : ∀ b ∈ c :: decimal n ++ [0x0D, 0x0A], b < 0x80 := by
    intro b hb
    simp only [List.cons_append, List.mem_cons, List.mem_append, List.mem_singleton,
      List.not_mem_nil, or_false] at hb
    rcases hb with rfl | hb | rfl | rfl
    · exact hc
    · have := isDigit_bounds (hdig b hb); omega
    · norm_num
    · norm_num
  have htake : (c :: decimal n ++ [0x0D, 0x0A]).take hugeWid = c :: decimal n ++ [0x0D, 0x0A] := by
    apply List.take_of_length_le
    simp [hugeWid]; omega
  have hskip := SkipSpace_digits (decimal n) [0x0D, 0x0A] (decimal_ne_nil n) hdig
  have hscan := scanInt_decimal n hn 0x0D [0x0A] (by decide)
  unfold Sscanf
  rw [runes_ascii _ hascii, htake]
  simp only [List.cons_append, ne_eq, not_true_eq_false, if_false]
  rw [hskip]
  simp only [hscan]
  simp [isSpace]

theorem ReadString_line (l rest : List Nat) (e : SrcErr) (h : 0x0A ∉ l) :
    Reader.ReadString ⟨l ++ 0x0A :: rest, e⟩ 0x0A = ((l ++ [0x0A], none), ⟨rest, e⟩) := by
  simp [Reader.ReadString, splitDelim_line 0x0A l rest h]

theorem ReadString_header (c M : Nat) (tail : List Nat) (e : SrcErr) (hc : c ≠ 0x0A) :
    Reader.ReadString ⟨c :: decimal M ++ [0x0D, 0x0A] ++ tail, e⟩ 0x0A
      = ((c :: decimal M ++ [0x0D, 0x0A], none), ⟨tail, e⟩) := by
  have hno : 0x0A ∉ c :: decimal M ++ [0x0D] := by
    intro hmem
    simp only [List.cons_append, List.mem_cons, List.mem_append, List.mem_singleton,
      List.not_mem_nil, or_false] at hmem
    rcases hmem with h | h | h
    · exact hc h.symm
    · have := isDigit_bounds (decimal_isDigit M _ h); omega
    · omega
  have := ReadString_line (c :: decimal M ++ [0x0D]) tail e hno
  simpa using this

theorem ReadAllLimit_exact (a rest : List Nat) (e : SrcErr) :
    Reader.ReadAllLimit ⟨a ++ rest, e⟩ (a.length : Int) = ((a, none), ⟨rest, e⟩) := by
  unfold Reader.ReadAllLimit
  cases a with
  | nil => simp
  | cons b bs =>
    have h1 : ¬ (((b :: bs).length : Int) ≤ 0) := by simp
    simp only [h1, if_false, Int.toNat_ofNat]
    simp

theorem readArgument_encodeArg (a rest : List Nat) (e : SrcErr) (ha : a.length < 2 ^ 63) :
    readArgument ⟨encodeArg a ++ rest, e⟩ = (Except.ok a, ⟨rest, e⟩) := by
  have hR := ReadString_header 0x24 a.length (a ++ [0x0D, 0x0A] ++ rest) e (by decide)
  have hS := Sscanf_header 0x24 a.length (by decide) ha
  have hA := ReadAllLimit_exact a ([0x0D, 0x0A] ++ rest) e
  have hshape : encodeArg a ++ rest
      = 0x24 :: decimal a.length ++ [0x0D, 0x0A] ++ (a ++ [0x0D, 0x0A] ++ rest) := by
    simp [encodeArg]
  unfold readArgument
  rw [hshape, hR]
  simp only [hS]
  rw [List.append_assoc a, hA]
  simp [Reader.ReadByte]

theorem readArgs_encodeArgs (as : List (List Nat)) (rest : List Nat) (e : SrcErr)
    (has : ∀ a ∈ as, a.length < 2 ^ 63) :
    readArgs as.length ⟨encodeArgs as ++ rest, e⟩ = (Except.ok as, ⟨rest, e⟩) := by
  induction as with
  | nil => rfl
  | cons a as ih =>
    have h1 := readArgument_encodeArg a (encodeArgs as ++ rest) e (has a (by simp))
    have h2 := ih (fun b hb => has b (by simp [hb]))
    simp only [List.length_cons, readArgs, encodeArgs, List.append_assoc, h1, h2]

theorem wrapInt_of_range (x : Int) (h1 : -2 ^ 63 ≤ x) (h2 : x < 2 ^ 63) : wrapInt x = x := by
  unfold wrapInt
  omega

theorem not_makeslicePanics (n : Nat) (h : sliceHeaderSize * n ≤ maxAlloc) :
    ¬ makeslicePanics (n : Int) := by
  unfold makeslicePanics
  have h' : ((sliceHeaderSize * n : Nat) : Int) ≤ (maxAlloc : Int) := by exact_mod_cast h
  push_cast at h'
  omega

theorem makeslice_ok {x : Int} (h : ¬ makeslicePanics x) :
    0 ≤ x ∧ sliceHeaderSize * x.toNat ≤ maxAlloc := by
  unfold makeslicePanics at h
  have h0 : 0 ≤ x := by omega
  refine ⟨h0, ?_⟩
  have hx : ((x.toNat : Nat) : Int) = x := Int.toNat_of_nonneg h0
  have h2 : ((sliceHeaderSize * x.toNat : Nat) : Int) ≤ (maxAlloc : Int) := by
    push_cast
    rw [hx]
    omega
  exact_mod_cast h2

theorem length_lt_of_fits (n : Nat) (h : sliceHeaderSize * n ≤ maxAlloc) : n + 1 < 2 ^ 63 := by
  unfold sliceHeaderSize maxAlloc at h
  omega

theorem parseRequest_encodeRequest (uni : List Nat → List Nat) (a : List Nat)
    (as : List (List Nat)) (rest : List Nat) (e : SrcErr)
    (hmk : sliceHeaderSize * as.length ≤ maxAlloc)
    (hlen : ∀ x ∈ a :: as, x.length < 2 ^ 63) :
    parseRequest uni ⟨encodeRequest (a :: as) ++ rest, e⟩
      = (Outcome.ok { name := ToLower uni a, args := as }, ⟨rest, e⟩) := by
  have hN : (a :: as).length < 2 ^ 63 := by
    simpa using length_lt_of_fits as.length hmk
  have hR := ReadString_header 0x2A (a :: as).length (encodeArgs (a :: as) ++ rest) e (by decide)
  have hS := Sscanf_header 0x2A (a :: as).length (by decide) hN
  have h1 := readArgument_encodeArg a (encodeArgs as ++ rest) e (hlen a (by simp))
  have h2 := readArgs_encodeArgs as rest e (fun b hb => hlen b (by simp [hb]))
  have hshape : encodeRequest (a :: as) ++ rest
      = 0x2A :: decimal (a :: as).length ++ [0x0D, 0x0A] ++ (encodeArgs (a :: as) ++ rest) := by
    simp [encodeRequest]
  have hw : wrapInt (((a :: as).length : Int) - 1) = (as.length : Int) := by
    rw [wrapInt_of_range]
    · simp
    · simp; omega
    · simp at hN ⊢; omega
  unfold parseRequest
  rw [hshape, hR]
  simp only [hS]
  rw [show encodeArgs (a :: as) ++ rest = encodeArg a ++ (encodeArgs as ++ rest) by
    simp [encodeArgs]]
  rw [h1]
  simp only [hw]
  have hnn : ¬ makeslicePanics (as.length : Int) := not_makeslicePanics as.length hmk
  simp only [hnn, if_false, Int.toNat_ofNat, h2]

/-! ## Inline requests: trimming and splitting -/

theorem decodeRune_fst (b : Nat) (bs : List Nat) :
    (decodeRune (b :: bs)).1 = b ∨ 0x80 ≤ (decodeRune (b :: bs)).1 := by
  simp only [decodeRune]
  repeat' split
  all_goals simp only [RuneError]
  all_goals first
    | exact Or.inl True.intro
    | omega

theorem Sscanf_none_of_head_ne (c b : Nat) (bs : List Nat) (hc : c < 0x80) (hb : b ≠ c) :
    Sscanf c (b :: bs) = none := by
  have h := decodeRune_fst b bs
  have hr : (decodeRune (b :: bs)).1 ≠ c := by
    rcases h with h | h
    · rw [h]; exact hb
    · omega
  unfold Sscanf runes
  simp only [runesAux, hugeWid, List.take_succ_cons, ne_eq, hr, not_false_eq_true, if_true]

theorem Trim_append (l t : List Nat) (hl : ∀ b ∈ l, isCRLF b = false)
    (ht : ∀ b ∈ t, isCRLF b = true) : Trim (l ++ t) = l := by
  unfold Trim
  have h1 : (l ++ t).dropWhile isCRLF = l ++ (if l = [] then [] else t) := by
    cases l with
    | nil =>
      simp only [List.nil_append, if_true]
      rw [List.dropWhile_eq_nil_iff]
      exact ht
    | cons a as =>
      have ha : isCRLF a = false := hl a (by simp)
      simp [List.dropWhile, ha]
  rw [h1]
  cases hlr : l.reverse with
  | nil =>
    have : l = [] := by simpa using hlr
    subst this
    simp
  | cons a as =>
    have hne : l ≠ [] := by intro h; subst h; simp at hlr
    have ha : isCRLF a = false := hl a (by
      have : a ∈ l.reverse := by rw [hlr]; simp
      simpa using this)
    simp only [hne, if_false, List.reverse_append, hlr]
    have h2 : (t.reverse ++ a :: as).dropWhile isCRLF = a :: as :=
      dropWhile_append_stop isCRLF t.reverse as a (by simpa using ht) ha
    rw [h2, ← hlr, List.reverse_reverse]

theorem splitAux_token (sep : Nat) (cur t rest : List Nat) (ht : sep ∉ t) :
    splitAux sep cur (t ++ sep :: rest) = (cur.reverse ++ t) :: splitAux sep [] rest := by
  induction t generalizing cur with
  | nil => simp [splitAux]
  | cons b bs ih =>
    have hb : b ≠ sep := fun e => ht (by simp [e])
    have hbs : sep ∉ bs := fun e => ht (by simp [e])
    simp [splitAux, hb, ih (b :: cur) hbs]

theorem splitAux_last (sep : Nat) (cur t : List Nat) (ht : sep ∉ t) :
    splitAux sep cur t = [cur.reverse ++ t] := by
  induction t generalizing cur with
  | nil => simp [splitAux]
  | cons b bs ih =>
    have hb : b ≠ sep := fun e => ht (by simp [e])
    have hbs : sep ∉ bs := fun e => ht (by simp [e])
    simp [splitAux, hb, ih (b :: cur) hbs]

theorem Split_joinTokens (t : List Nat) (ts : List (List Nat))
    (h : ∀ x ∈ t :: ts, 0x20 ∉ x) : Split (joinTokens (t :: ts)) 0x20 = t :: ts := by
  unfold Split
  induction ts generalizing t with
  | nil => simpa [joinTokens] using splitAux_last 0x20 [] t (h t (by simp))
  | cons u us ih =>
    have ht := h t (by simp)
    have hrest : ∀ x ∈ u :: us, 0x20 ∉ x := fun x hx => h x (by simp [hx])
    rw [joinTokens, splitAux_token 0x20 [] t _ ht, ih u hrest]
    simp

theorem joinTokens_mem (toks : List (List Nat)) (b : Nat) (hb : b ∈ joinTokens toks) :
    b = 0x20 ∨ ∃ t ∈ toks, b ∈ t := by
  induction toks with
  | nil => simp [joinTokens] at hb
  | cons t ts ih =>
    cases ts with
    | nil => right; exact ⟨t, by simp, by simpa [joinTokens] using hb⟩
    | cons u us =>
      simp only [joinTokens, List.mem_append, List.mem_cons] at hb
      rcases hb with hb | hb | hb
      · right; exact ⟨t, by simp, hb⟩
      · left; exact hb
      · rcases ih hb with h | ⟨x, hx, hbx⟩
        · left; exact h
        · right; exact ⟨x, by simp [hx], hbx⟩

theorem encodeInline_head (t : List Nat) (ts : List (List Nat)) (crlf : Bool)
    (hstar : t.head? ≠ some 0x2A) :
    ∃ b bs, encodeInline (t :: ts) crlf = b :: bs ∧ b ≠ 0x2A := by
  cases t with
  | nil =>
    cases ts with
    | nil => cases crlf <;> simp [encodeInline, joinTokens]
    | cons u us => simp [encodeInline, joinTokens]
  | cons b bs =>
    have hb : b ≠ 0x2A := by simpa using hstar
    cases ts with
    | nil => exact ⟨b, _, rfl, hb⟩
    | cons u us => exact ⟨b, _, rfl, hb⟩

theorem readInline_encodeInline (uni : List Nat → List Nat) (t : List Nat)
    (ts : List (List Nat)) (crlf : Bool)
    (hno : ∀ x ∈ t :: ts, ∀ b ∈ x, b ≠ 0x20 ∧ b ≠ 0x0D ∧ b ≠ 0x0A) :
    readInline uni (encodeInline (t :: ts) crlf)
      = Outcome.ok { name := ToLower uni t, args := ts } := by
  have hj : ∀ b ∈ joinTokens (t :: ts), isCRLF b = false := by
    intro b hb
    rcases joinTokens_mem _ b hb with h | ⟨x, hx, hbx⟩
    · subst h; rfl
    · have := hno x hx b hbx
      simp [isCRLF, this.2.1, this.2.2]
  have hterm : ∀ b ∈ (if crlf = true then [0x0D, 0x0A] else [0x0A]), isCRLF b = true := by
    cases crlf <;> simp [isCRLF]
  have hT : Trim (encodeInline (t :: ts) crlf) = joinTokens (t :: ts) :=
    Trim_append _ _ hj hterm
  have hS : Split (joinTokens (t :: ts)) 0x20 = t :: ts :=
    Split_joinTokens t ts (fun x hx hmem => (hno x hx _ hmem).1 rfl)
  simp only [readInline, hT, hS]

theorem parseRequest_encodeInline (uni : List Nat → List Nat) (t : List Nat)
    (ts : List (List Nat)) (crlf : Bool) (s : List Nat) (e : SrcErr)
    (hno : ∀ x ∈ t :: ts, ∀ b ∈ x, b ≠ 0x20 ∧ b ≠ 0x0D ∧ b ≠ 0x0A)
    (hstar : t.head? ≠ some 0x2A) :
    parseRequest uni ⟨encodeInline (t :: ts) crlf ++ s, e⟩
      = (Outcome.ok { name := ToLower uni t, args := ts }, ⟨s, e⟩) := by
  have hbody : 0x0A ∉ joinTokens (t :: ts) ++ (if crlf = true then [0x0D] else []) := by
    intro hmem
    rw [List.mem_append] at hmem
    rcases hmem with h | h
    · rcases joinTokens_mem _ _ h with h1 | ⟨x, hx, hbx⟩
      · omega
      · exact (hno x hx _ hbx).2.2 rfl
    · cases crlf <;> simp at h
  have hshape : encodeInline (t :: ts) crlf
      = (joinTokens (t :: ts) ++ (if crlf = true then [0x0D] else [])) ++ [0x0A] := by
    cases crlf <;> simp [encodeInline]
  have hR := ReadString_line _ s e hbody
  obtain ⟨b, bs, hhead, hb⟩ := encodeInline_head t ts crlf hstar
  have hS : Sscanf 0x2A (encodeInline (t :: ts) crlf) = none := by
    rw [hhead]; exact Sscanf_none_of_head_ne 0x2A b bs (by decide) hb
  have hI := readInline_encodeInline uni t ts crlf hno
  have hin : encodeInline (t :: ts) crlf ++ s
      = (joinTokens (t :: ts) ++ (if crlf = true then [0x0D] else [])) ++ 0x0A :: s := by
    rw [hshape]; simp
  unfold parseRequest
  rw [hin, hR, ← hshape]
  simp only [hS, hI]

theorem splitAux_ne_nil (sep : Nat) (cur s : List Nat) : splitAux sep cur s ≠ [] := by
  induction s generalizing cur with
  | nil => simp [splitAux]
  | cons b bs ih =>
    unfold splitAux
    split
    · simp
    · exact ih (b :: cur)

theorem readInline_ok (uni : List Nat → List Nat) (buf : List Nat) :
    ∃ req, readInline uni buf = Outcome.ok req := by
  unfold readInline
  split
  · rename_i h
    exact absurd h (splitAux_ne_nil 0x20 [] (Trim buf))
  · exact ⟨_, rfl⟩

theorem parseRequest_inline_line (uni : List Nat → List Nat) (l s : List Nat) (e : SrcErr)
    (hl : 0x0A ∉ l) (hhead : (l ++ [0x0A]).head? ≠ some 0x2A) :
    ∃ req, readInline uni (l ++ [0x0A]) = Outcome.ok req
      ∧ parseRequest uni ⟨l ++ 0x0A :: s, e⟩ = (Outcome.ok req, ⟨s, e⟩) := by
  obtain ⟨req, hreq⟩ := readInline_ok uni (l ++ [0x0A])
  refine ⟨req, hreq, ?_⟩
  have hS : Sscanf 0x2A (l ++ [0x0A]) = none := by
    cases hl' : l ++ [0x0A] with
    | nil => simp at hl'
    | cons b bs =>
      rw [hl'] at hhead
      exact Sscanf_none_of_head_ne 0x2A b bs (by decide) (by simpa using hhead)
  unfold parseRequest
  rw [ReadString_line l s e hl]
  simp only [hS, hreq]

/-! ## Consuming one request -/

theorem parseRequest_wire (uni : List Nat → List Nat) (w : Wire) (s : List Nat)
    (e : SrcErr) (hw : w.WellFormed) :
    parseRequest uni ⟨w.bytes ++ s, e⟩ = (Outcome.ok (w.request uni), ⟨s, e⟩) := by
  cases w with
  | framed a as => exact parseRequest_encodeRequest uni a as s e hw.1 hw.2
  | inline t ts crlf => exact parseRequest_encodeInline uni t ts crlf s e hw.1 hw.2

theorem readArgs_error (pre : List (List Nat)) (n : Nat) (bad : List Nat) (e : SrcErr)
    (err : Err) (r : Reader) (hpre : ∀ a ∈ pre, a.length < 2 ^ 63) (hn : pre.length < n)
    (hbad : readArgument ⟨bad, e⟩ = (Except.error err, r)) :
    readArgs n ⟨encodeArgs pre ++ bad, e⟩ = (Except.error err, r) := by
  induction pre generalizing n with
  | nil =>
    obtain ⟨m, rfl⟩ : ∃ m, n = m + 1 := ⟨n - 1, by simp at hn; omega⟩
    simp only [encodeArgs, List.nil_append, readArgs, hbad]
  | cons a as ih =>
    obtain ⟨m, rfl⟩ : ∃ m, n = m + 1 := ⟨n - 1, by simp at hn; omega⟩
    have h1 := readArgument_encodeArg a (encodeArgs as ++ bad) e (hpre a (by simp))
    have h2 := ih m (fun b hb => hpre b (by simp [hb])) (by simp at hn; omega)
    simp only [encodeArgs, List.append_assoc, readArgs, h1, h2]

/-- A framed request of declared count `N` whose first `pre.length < N`
arguments are well formed and whose next argument makes `readArgument` fail:
`parseRequest` returns the error of that `readArgument`, provided the failing
argument is the first one or `make` allocates the `N-1` entries of `args`. -/
theorem parseRequest_argument_error (uni : List Nat → List Nat) (N : Nat)
    (pre : List (List Nat)) (bad : List Nat) (e : SrcErr) (err : Err) (r : Reader)
    (hN : N < 2 ^ 63) (hmk : pre = [] ∨ sliceHeaderSize * (N - 1) ≤ maxAlloc)
    (hpre : ∀ a ∈ pre, a.length < 2 ^ 63) (hn : pre.length < N)
    (hbad : readArgument ⟨bad, e⟩ = (Except.error err, r)) :
    parseRequest uni ⟨0x2A :: decimal N ++ [0x0D, 0x0A] ++ (encodeArgs pre ++ bad), e⟩
      = (Outcome.error err, r) := by
  have hR := ReadString_header 0x2A N (encodeArgs pre ++ bad) e (by decide)
  have hS := Sscanf_header 0x2A N (by decide) hN
  unfold parseRequest
  rw [hR]
  simp only [hS]
  cases pre with
  | nil => simp only [encodeArgs, List.nil_append, hbad]
  | cons a as =>
    have h1 := readArgument_encodeArg a (encodeArgs as ++ bad) e (hpre a (by simp))
    have h2 := readArgs_error as (N - 1) bad e err r (fun b hb => hpre b (by simp [hb]))
      (by simp at hn; omega) hbad
    have hw : wrapInt ((N : Int) - 1) = ((N - 1 : Nat) : Int) := by
      rw [wrapInt_of_range]
      · omega
      · omega
      · omega
    simp only [encodeArgs, List.append_assoc, h1, hw]
    have hfit : sliceHeaderSize * (N - 1) ≤ maxAlloc := by
      rcases hmk with h | h
      · exact absurd h (by simp)
      · exact h
    have hnn : ¬ makeslicePanics ((N - 1 : Nat) : Int) := not_makeslicePanics (N - 1) hfit
    simp only [hnn, if_false, Int.toNat_ofNat, h2]

theorem ReadAllLimit_short (p : List Nat) (M : Nat) (h : p.length < M) :
    Reader.ReadAllLimit ⟨p, SrcErr.eof⟩ (M : Int) = ((p, none), ⟨[], SrcErr.eof⟩) := by
  unfold Reader.ReadAllLimit
  have h1 : ¬ ((M : Int) ≤ 0) := by omega
  have h2 : ¬ (M ≤ p.length) := by omega
  simp only [h1, if_false, Int.toNat_ofNat, h2]

theorem readArgument_short (M : Nat) (p : List Nat) (hM : M < 2 ^ 63) (hg : p.length < M) :
    readArgument ⟨0x24 :: decimal M ++ [0x0D, 0x0A] ++ p, SrcErr.eof⟩
      = (Except.error (malformedLength M p.length), ⟨[], SrcErr.eof⟩) := by
  have hR := ReadString_header 0x24 M p SrcErr.eof (by decide)
  have hS := Sscanf_header 0x24 M (by decide) hM
  have hA := ReadAllLimit_short p M hg
  have hne : ¬ ((p.length : Int) = (M : Int)) := by omega
  unfold readArgument
  rw [hR]
  simp only [hS, hA, ne_eq, hne, not_false_eq_true, if_true]

theorem lowerByte_not_upper (b : Nat) : ¬ (0x41 ≤ lowerByte b ∧ lowerByte b ≤ 0x5A) := by
  unfold lowerByte
  split <;> omega

theorem ToLower_not_upper (uni : List Nat → List Nat)
    (hU : ∀ s, ∀ b ∈ uni s, ¬ (0x41 ≤ b ∧ b ≤ 0x5A)) (s : List Nat) :
    ∀ b ∈ ToLower uni s, ¬ (0x41 ≤ b ∧ b ≤ 0x5A) := by
  intro b hb
  unfold ToLower at hb
  split at hb
  · obtain ⟨x, _, rfl⟩ := List.mem_map.1 hb
    exact lowerByte_not_upper x
  · exact hU s b hb

theorem ToLower_ascii (uni : List Nat → List Nat) (s : List Nat) (h : ∀ b ∈ s, b < 0x80) :
    ToLower uni s = s.map lowerByte := by
  unfold ToLower
  have : s.all (fun b => decide (b < 0x80)) = true := by
    simpa [List.all_eq_true] using h
  simp [this]

theorem parseRequest_ok_cases (uni : List Nat → List Nat) (r : Reader) (req : Request)
    (r' : Reader) (h : parseRequest uni r = (Outcome.ok req, r')) :
    ∃ first, req.name = ToLower uni first
      ∧ ((Sscanf 0x2A (r.ReadString 0x0A).1.1 = none
            ∧ Split (Trim (r.ReadString 0x0A).1.1) 0x20 = first :: req.args)
          ∨ (∃ n, Sscanf 0x2A (r.ReadString 0x0A).1.1 = some n
            ∧ (readArgument (r.ReadString 0x0A).2).1 = Except.ok first
            ∧ (readArgs (wrapInt (n - 1)).toNat (readArgument (r.ReadString 0x0A).2).2).1
              = Except.ok req.args)) := by
  unfold parseRequest at h
  split at h
  · simp at h
  · rename_i line r1 hRS
    rw [hRS]
    simp only
    split at h
    · rename_i hS
      rw [hS]
      unfold readInline at h
      split at h
      · rename_i e he
        split at he <;> simp at he
      · rename_i res hres
        split at h
        · simp at h
        · rename_i t0 rest hsplit
          simp only [Prod.mk.injEq, Outcome.ok.injEq] at h
          obtain ⟨hreq, _⟩ := h
          subst hreq
          exact ⟨t0, rfl, Or.inl ⟨rfl, hsplit⟩⟩
    · rename_i n hS
      rw [hS]
      split at h
      · simp at h
      · rename_i firstArg r2 hA
        split at h
        · simp at h
        · split at h
          · simp at h
          · rename_i args r3 hAs
            simp only [Prod.mk.injEq, Outcome.ok.injEq] at h
            obtain ⟨hreq, _⟩ := h
            subst hreq
            refine ⟨firstArg, rfl, Or.inr ⟨n, rfl, ?_, ?_⟩⟩
            · rw [hA]
            · rw [hA]; simp only; rw [hAs]

/-! ## Errors of the source -/

theorem ReadString_fail (l : List Nat) (e : SrcErr) (h : 0x0A ∉ l) :
    Reader.ReadString ⟨l, e⟩ 0x0A = ((l, some e), ⟨[], e⟩) := by
  simp [Reader.ReadString, splitDelim_none 0x0A l h]

theorem readArgument_header_fail (l : List Nat) (e : SrcErr) (h : 0x0A ∉ l) :
    readArgument ⟨l, e⟩ = (Except.error (malformed "$<argumentLength>" l), ⟨[], e⟩) := by
  unfold readArgument
  rw [ReadString_fail l e h]

theorem readArgument_payload_io (M : Nat) (p : List Nat) (code : Nat) (hM : M < 2 ^ 63)
    (hg : p.length < M) :
    readArgument ⟨0x24 :: decimal M ++ [0x0D, 0x0A] ++ p, SrcErr.io code⟩
      = (Except.error (Err.src (SrcErr.io code)), ⟨[], SrcErr.io code⟩) := by
  have hR := ReadString_header 0x24 M p (SrcErr.io code) (by decide)
  have hS := Sscanf_header 0x24 M (by decide) hM
  have hA : Reader.ReadAllLimit ⟨p, SrcErr.io code⟩ (M : Int)
      = ((p, some (SrcErr.io code)), ⟨[], SrcErr.io code⟩) := by
    unfold Reader.ReadAllLimit
    have h1 : ¬ ((M : Int) ≤ 0) := by omega
    have h2 : ¬ (M ≤ p.length) := by omega
    simp only [h1, if_false, Int.toNat_ofNat, h2]
  unfold readArgument
  rw [hR]
  simp only [hS, hA]

/-! ## The header lines `Sscanf` accepts -/

theorem SkipSpace_some (rs rs1 : List Nat) (h : SkipSpace rs = some rs1) :
    ∃ ws, rs = ws ++ rs1 ∧ (∀ w ∈ ws, isSpace w = true ∧ w ≠ 0x0A)
      ∧ (∀ x ∈ rs1.head?, isSpace x = false) := by
  induction rs with
  | nil =>
    simp only [SkipSpace, Option.some.injEq] at h
    subst h
    exact ⟨[], rfl, by simp, by simp⟩
  | cons r rs ih =>
    unfold SkipSpace at h
    split_ifs at h with h1 h2 h3
    · obtain ⟨ws, hws, hall, hhead⟩ := ih h
      refine ⟨r :: ws, by rw [hws]; rfl, ?_, hhead⟩
      intro w hw
      rcases List.mem_cons.1 hw with rfl | hw
      · rw [h1.1]; decide
      · exact hall w hw
    · simp only [Option.some.injEq] at h
      subst h
      exact ⟨[], rfl, by simp, by simpa using h3⟩
    · obtain ⟨ws, hws, hall, hhead⟩ := ih h
      refine ⟨r :: ws, by rw [hws]; rfl, ?_, hhead⟩
      intro w hw
      rcases List.mem_cons.1 hw with rfl | hw
      · exact ⟨by simpa using h3, h2⟩
      · exact hall w hw

theorem SkipSpace_fixed (t : List Nat) (ht : ∀ x ∈ t.head?, isSpace x = false) :
    SkipSpace t = some t := by
  cases t with
  | nil => rfl
  | cons x t =>
    have hx : isSpace x = false := ht x (by simp)
    have h1 : x ≠ 0x0D := by intro h; subst h; simp [isSpace] at hx
    have h2 : x ≠ 0x0A := by intro h; subst h; simp [isSpace] at hx
    simp [SkipSpace, h1, h2, hx]

theorem SkipSpace_append (ws t : List Nat) (hws : ∀ w ∈ ws, isSpace w = true ∧ w ≠ 0x0A)
    (ht : ∀ x ∈ t.head?, isSpace x = false) : SkipSpace (ws ++ t) = some t := by
  induction ws with
  | nil => exact SkipSpace_fixed t ht
  | cons w ws ih =>
    have hw := hws w (by simp)
    have ih' := ih (fun x hx => hws x (by simp [hx]))
    rw [List.cons_append]
    unfold SkipSpace
    split_ifs with h1 h2 h3
    · exact ih'
    · exact absurd h2 hw.2
    · rw [hw.1] at h3; simp at h3
    · exact ih'

theorem takeWhile_append_head (p : Nat → Bool) (l t : List Nat)
    (hl : ∀ a ∈ l, p a = true) (ht : ∀ x ∈ t.head?, p x = false) :
    (l ++ t).takeWhile p = l ∧ (l ++ t).dropWhile p = t := by
  cases t with
  | nil =>
    simp only [List.append_nil]
    exact ⟨List.takeWhile_eq_self_iff.2 hl, List.dropWhile_eq_nil_iff.2 hl⟩
  | cons x t =>
    have hx : p x = false := ht x (by simp)
    exact ⟨takeWhile_append_stop p l t x hl hx, dropWhile_append_stop p l t x hl hx⟩

theorem isDigit_of_blank {x : Nat} (h : isSpace x = true) : isDigit x = false := by
  cases hd : isDigit x with
  | false => rfl
  | true => rw [isSpace_of_isDigit hd] at h; simp at h

theorem ParseInt_some (neg : Bool) (ds : List Nat) (v : Int) :
    ParseInt neg ds = some v ↔
      (if neg = true then digitsValue ds ≤ 2 ^ 63 ∧ v = -(digitsValue ds : Int)
        else digitsValue ds < 2 ^ 63 ∧ v = (digitsValue ds : Int)) := by
  unfold ParseInt
  cases neg with
  | true =>
    simp only [if_true]
    split_ifs with h
    · simp; omega
    · simp only [Option.some.injEq]
      constructor
      · intro hv; exact ⟨by omega, hv.symm⟩
      · intro hv; exact hv.2.symm
  | false =>
    simp only [Bool.false_eq_true, if_false]
    split_ifs with h
    · simp; omega
    · simp only [Option.some.injEq]
      constructor
      · intro hv; exact ⟨by omega, hv.symm⟩
      · intro hv; exact hv.2.symm

theorem scanInt_some (rs : List Nat) (v : Int) (rs2 : List Nat)
    (h : scanInt rs = some (v, rs2)) :
    ∃ ws sgn ds, rs = ws ++ (sgn ++ (ds ++ rs2))
      ∧ (∀ w ∈ ws, isSpace w = true ∧ w ≠ 0x0A)
      ∧ (sgn = [] ∨ sgn = [0x2B] ∨ sgn = [0x2D])
      ∧ ds ≠ [] ∧ (∀ d ∈ ds, isDigit d = true)
      ∧ (∀ x ∈ rs2.head?, isDigit x = false)
      ∧ (if sgn = [0x2D] then digitsValue ds ≤ 2 ^ 63 ∧ v = -(digitsValue ds : Int)
          else digitsValue ds < 2 ^ 63 ∧ v = (digitsValue ds : Int)) := by
  unfold scanInt at h
  split at h
  · simp at h
  · simp at h
  · rename_i r rest hskip
    obtain ⟨ws, hws, hall, _⟩ := SkipSpace_some rs (r :: rest) hskip
    simp only at h
    generalize hds0 : (if r = 0x2D ∨ r = 0x2B then rest else r :: rest) = ds0 at h
    by_cases hnil : ds0.takeWhile isDigit = []
    · simp [hnil] at h
    · simp only [hnil, if_false] at h
      split at h
      · simp at h
      · rename_i v' hP
        simp only [Option.some.injEq, Prod.mk.injEq] at h
        obtain ⟨hv, hrs2⟩ := h
        subst hv
        have hP' := (ParseInt_some _ _ _).1 hP
        have hdig : ∀ d ∈ ds0.takeWhile isDigit, isDigit d = true :=
          fun d hd => List.mem_takeWhile_imp hd
        have hdrop : ∀ x ∈ rs2.head?, isDigit x = false := by
          intro x hx
          rw [← hrs2, Option.mem_def] at hx
          have := List.head?_dropWhile_not isDigit ds0
          rw [hx] at this
          simpa using this
        have hsplit := List.takeWhile_append_dropWhile isDigit ds0
        rw [hrs2] at hsplit
        by_cases hm : r = 0x2D
        · subst hm
          simp only [true_or, if_true] at hds0
          subst hds0
          refine ⟨ws, [0x2D], _, ?_, hall, Or.inr (Or.inr rfl), hnil, hdig, hdrop, ?_⟩
          · rw [hws, hsplit]; rfl
          · simpa using hP'
        · by_cases hp : r = 0x2B
          · subst hp
            simp only [or_true, if_true] at hds0
            subst hds0
            refine ⟨ws, [0x2B], _, ?_, hall, Or.inr (Or.inl rfl), hnil, hdig, hdrop, ?_⟩
            · rw [hws, hsplit]; rfl
            · simpa using hP'
          · have hno : ¬ (r = 0x2D ∨ r = 0x2B) := by tauto
            simp only [hno, if_false] at hds0
            subst hds0
            refine ⟨ws, [], _, ?_, hall, Or.inl rfl, hnil, hdig, hdrop, ?_⟩
            · rw [hws, hsplit]; rfl
            · simpa [hm] using hP'

theorem scanInt_of_form (ws sgn ds rest : List Nat) (v : Int)
    (hws : ∀ w ∈ ws, isSpace w = true ∧ w ≠ 0x0A)
    (hsgn : sgn = [] ∨ sgn = [0x2B] ∨ sgn = [0x2D])
    (hne : ds ≠ []) (hds : ∀ d ∈ ds, isDigit d = true)
    (hrest : ∀ x ∈ rest.head?, isDigit x = false)
    (hv : if sgn = [0x2D] then digitsValue ds ≤ 2 ^ 63 ∧ v = -(digitsValue ds : Int)
          else digitsValue ds < 2 ^ 63 ∧ v = (digitsValue ds : Int)) :
    scanInt (ws ++ (sgn ++ (ds ++ rest))) = some (v, rest) := by
  obtain ⟨d, ds', rfl⟩ := List.exists_cons_of_ne_nil hne
  have hd : isDigit d = true := hds d (by simp)
  have hdb := isDigit_bounds hd
  have htd := takeWhile_append_head isDigit (d :: ds') rest hds hrest
  have hhead : ∀ x ∈ (sgn ++ (d :: ds' ++ rest)).head?, isSpace x = false := by
    intro x hx
    rcases hsgn with rfl | rfl | rfl
    · simp at hx; subst hx; exact isSpace_of_isDigit hd
    · simp at hx; subst hx; decide
    · simp at hx; subst hx; decide
  have hskip := SkipSpace_append ws _ hws hhead
  unfold scanInt
  rw [hskip]
  rcases hsgn with rfl | rfl | rfl
  · have h1 : d ≠ 0x2B := by omega
    have h2 : d ≠ 0x2D := by omega
    have hP : ParseInt false (d :: ds') = some v := (ParseInt_some _ _ _).2 (by simpa using hv)
    simp only [List.nil_append, List.cons_append] at htd ⊢
    simp only [h1, h2, or_self, if_false, htd.1, htd.2, decide_False]
    simp [hP]
  · have hP : ParseInt false (d :: ds') = some v := (ParseInt_some _ _ _).2 (by simpa using hv)
    simp only [List.cons_append, List.nil_append] at htd ⊢
    simp only [or_true, if_true, htd.1, htd.2]
    simp [hP]
  · have hP : ParseInt true (d :: ds') = some v := (ParseInt_some _ _ _).2 (by simpa using hv)
    simp only [List.cons_append, List.nil_append] at htd ⊢
    simp only [true_or, if_true, htd.1, htd.2, decide_True]
    simp [hP]

theorem Sscanf_iff (c : Nat) (line : List Nat) (v : Int) :
    Sscanf c line = some v ↔ HeaderForm c line v := by
  constructor
  · intro h
    unfold Sscanf at h
    split at h
    · simp at h
    · rename_i r rs hrunes
      split_ifs at h with hr
      have hrc : r = c := by simpa using hr
      subst hrc
      split at h
      · simp at h
      · rename_i rs1 hskip
        split at h
        · simp at h
        · rename_i v' rs2 hscan
          obtain ⟨ws1, hws1, hall1, _⟩ := SkipSpace_some rs rs1 hskip
          obtain ⟨ws2, sgn, ds, hrs1, hall2, hsgn, hne, hds, _, hval⟩ :=
            scanInt_some rs1 v' rs2 hscan
          have hrest : ∀ x ∈ rs2.head?, isSpace x = true ∧ x ≠ 0x0A ∧ v' = v := by
            intro x hx
            cases rs2 with
            | nil => simp at hx
            | cons y t =>
              simp only [List.head?_cons, Option.mem_def, Option.some.injEq] at hx
              subst hx
              simp only at h
              split_ifs at h with hy
              simp only [Option.some.injEq] at h
              exact ⟨hy.1, hy.2, h⟩
          have hv : v' = v := by
            cases rs2 with
            | nil => simpa using h
            | cons y t => exact (hrest y (by simp)).2.2
          subst hv
          refine ⟨ws1 ++ ws2, sgn, ds, rs2, ?_, ?_, hsgn, hne, hds, ?_, hval⟩
          · rw [hrunes, hws1, hrs1]; simp
          · intro w hw
            rcases List.mem_append.1 hw with hw | hw
            · exact hall1 w hw
            · exact hall2 w hw
          · intro x hx
            exact ⟨(hrest x hx).1, (hrest x hx).2.1⟩
  · rintro ⟨ws, sgn, ds, rest, hrunes, hws, hsgn, hne, hds, hrest, hval⟩
    obtain ⟨d, ds', hdd⟩ := List.exists_cons_of_ne_nil hne
    have hd : isDigit d = true := hds d (by simp [hdd])
    have hhead : ∀ x ∈ (sgn ++ (ds ++ rest)).head?, isSpace x = false := by
      intro x hx
      rw [hdd] at hx
      rcases hsgn with rfl | rfl | rfl
      · simp at hx; subst hx; exact isSpace_of_isDigit hd
      · simp at hx; subst hx; decide
      · simp at hx; subst hx; decide
    have hskip := SkipSpace_append ws _ hws hhead
    have hscan := scanInt_of_form [] sgn ds rest v (by simp) hsgn hne hds
      (fun x hx => isDigit_of_blank (hrest x hx).1) hval
    rw [List.nil_append] at hscan
    unfold Sscanf
    rw [hrunes]
    simp only [ne_eq, not_true_eq_false, if_false, hskip, hscan]
    cases rest with
    | nil => rfl
    | cons x t =>
      have := hrest x (by simp)
      simp [this.1, this.2]

theorem Sscanf_none_iff (c : Nat) (line : List Nat) :
    Sscanf c line = none ↔ ¬ ∃ v, HeaderForm c line v := by
  constructor
  · rintro h ⟨v, hv⟩
    rw [(Sscanf_iff c line v).2 hv] at h
    simp at h
  · intro h
    cases hS : Sscanf c line with
    | none => rfl
    | some v => exact absurd ⟨v, (Sscanf_iff c line v).1 hS⟩ h

theorem readArgument_scanned (l rest : List Nat) (e : SrcErr) (v : Int)
    (hl : 0x0A ∉ l) (hS : Sscanf 0x24 (l ++ [0x0A]) = some v) :
    (readArgument ⟨l ++ 0x0A :: rest, e⟩).1
      ≠ Except.error (malformed "$<argumentSize>" (l ++ [0x0A])) := by
  unfold readArgument
  rw [ReadString_line l rest e hl]
  simp only [hS]
  repeat' split
  all_goals simp [malformed, malformedLength, malformedMissingCRLF]

/-! ## The dispatch on the first line -/

theorem parseRequest_dispatch (uni : List Nat → List Nat) (l s : List Nat) (e : SrcErr)
    (hl : 0x0A ∉ l) (hS : Sscanf 0x2A (l ++ [0x0A]) = none) :
    parseRequest uni ⟨l ++ 0x0A :: s, e⟩
      = (match readInline uni (l ++ [0x0A]) with
          | Outcome.error _ => Outcome.error (malformed "*<numberOfArguments>" (l ++ [0x0A]))
          | res => res, ⟨s, e⟩) := by
  unfold parseRequest
  rw [ReadString_line l s e hl]
  simp only [hS]
  split <;> simp_all

theorem ReadString_cases (r : Reader) :
    (∃ l rest, r.buf = l ++ 0x0A :: rest ∧ 0x0A ∉ l
        ∧ r.ReadString 0x0A = ((l ++ [0x0A], none), ⟨rest, r.err⟩))
      ∨ (0x0A ∉ r.buf ∧ r.ReadString 0x0A = ((r.buf, some r.err), ⟨[], r.err⟩)) := by
  by_cases h : 0x0A ∈ r.buf
  · left
    obtain ⟨l, rest, hbuf, hl⟩ := List.eq_append_cons_of_mem h
    refine ⟨l, rest, hbuf, hl, ?_⟩
    have := ReadString_line l rest r.err hl
    rw [← hbuf] at this
    exact this
  · right
    exact ⟨h, ReadString_fail r.buf r.err h⟩

theorem readArgument_not_framing (r : Reader) (got : List Nat) :
    (readArgument r).1 ≠ Except.error (malformed "*<numberOfArguments>" got) := by
  unfold readArgument
  repeat' split
  all_goals simp [malformed, malformedLength, malformedMissingCRLF]

theorem readArgs_not_framing (n : Nat) (r : Reader) (got : List Nat) :
    (readArgs n r).1 ≠ Except.error (malformed "*<numberOfArguments>" got) := by
  induction n generalizing r with
  | zero => simp [readArgs]
  | succ n ih =>
    unfold readArgs
    split
    · rename_i e r1 h
      have := readArgument_not_framing r got
      rw [h] at this
      simpa using this
    · rename_i a r1 h
      split
      · rename_i e r2 h2
        have := ih r1
        rw [h2] at this
        simpa using this
      · simp

theorem parseRequest_not_framing (uni : List Nat → List Nat) (r : Reader) (got : List Nat) :
    (parseRequest uni r).1 ≠ Outcome.error (malformed "*<numberOfArguments>" got) := by
  unfold parseRequest
  split
  · simp [malformed]
  · rename_i line r1 hRS
    split
    · obtain ⟨req, hreq⟩ := readInline_ok uni line
      rw [hreq]
      simp
    · split
      · rename_i e r2 h
        have := readArgument_not_framing r1 got
        rw [h] at this
        intro hc
        apply this
        simp only [Outcome.error.injEq] at hc
        simp [hc]
      · rename_i firstArg r2 h
        split
        · simp
        · split
          · rename_i e r3 h3
            have := h3 ▸ readArgs_not_framing _ r2 got
            intro hc
            apply this
            simp only [Outcome.error.injEq] at hc
            simp [hc]
          · simp

/-! ## Trimming at both ends -/

theorem Trim_core (pre core post : List Nat) (hpre : ∀ b ∈ pre, isCRLF b = true)
    (hpost : ∀ b ∈ post, isCRLF b = true) (hhead : ∀ b ∈ core.head?, isCRLF b = false)
    (hlast : ∀ b ∈ core.getLast?, isCRLF b = false) :
    Trim (pre ++ core ++ post) = core := by
  unfold Trim
  cases core with
  | nil =>
    have hall : ∀ b ∈ pre ++ [] ++ post, isCRLF b = true := by
      intro b hb
      simp only [List.append_nil, List.mem_append] at hb
      rcases hb with hb | hb
      · exact hpre b hb
      · exact hpost b hb
    rw [List.dropWhile_eq_nil_iff.2 hall]
    rfl
  | cons c cs =>
    have hc : isCRLF c = false := hhead c (by simp)
    have h1 : (pre ++ c :: cs ++ post).dropWhile isCRLF = c :: cs ++ post := by
      have := dropWhile_append_stop isCRLF pre (cs ++ post) c hpre hc
      simpa using this
    rw [h1, List.reverse_append]
    obtain ⟨x, xs, hx⟩ : ∃ x xs, (c :: cs).reverse = x :: xs := by
      cases hr : (c :: cs).reverse with
      | nil => simp at hr
      | cons x xs => exact ⟨x, xs, rfl⟩
    have hxl : (c :: cs).getLast? = some x := by
      rw [← List.head?_reverse, hx]; rfl
    have hxc : isCRLF x = false := hlast x (by simp [hxl])
    rw [hx]
    have h2 : (post.reverse ++ x :: xs).dropWhile isCRLF = x :: xs :=
      dropWhile_append_stop isCRLF post.reverse xs x (by simpa using hpost) hxc
    rw [h2, ← hx, List.reverse_reverse]

theorem Trim_decompose (buf : List Nat) :
    ∃ pre core post, buf = pre ++ core ++ post
      ∧ (∀ b ∈ pre, isCRLF b = true) ∧ (∀ b ∈ post, isCRLF b = true)
      ∧ (∀ b ∈ core.head?, isCRLF b = false)
      ∧ (∀ b ∈ core.getLast?, isCRLF b = false) := by
  refine ⟨buf.takeWhile isCRLF, ((buf.dropWhile isCRLF).reverse.dropWhile isCRLF).reverse,
    ((buf.dropWhile isCRLF).reverse.takeWhile isCRLF).reverse, ?_, ?_, ?_, ?_, ?_⟩
  · have h1 := List.takeWhile_append_dropWhile isCRLF buf
    have h2 := List.takeWhile_append_dropWhile isCRLF (buf.dropWhile isCRLF).reverse
    have h3 : buf.dropWhile isCRLF
        = ((buf.dropWhile isCRLF).reverse.dropWhile isCRLF).reverse
          ++ ((buf.dropWhile isCRLF).reverse.takeWhile isCRLF).reverse := by
      rw [← List.reverse_append, h2, List.reverse_reverse]
    rw [List.append_assoc, ← h3, h1]
  · intro b hb
    exact List.mem_takeWhile_imp hb
  · intro b hb
    exact List.mem_takeWhile_imp (List.mem_reverse.1 hb)
  · intro b hb
    have h3 : buf.dropWhile isCRLF
        = ((buf.dropWhile isCRLF).reverse.dropWhile isCRLF).reverse
          ++ ((buf.dropWhile isCRLF).reverse.takeWhile isCRLF).reverse := by
      rw [← List.reverse_append, List.takeWhile_append_dropWhile, List.reverse_reverse]
    have hh := List.head?_dropWhile_not isCRLF buf
    cases hcore : ((buf.dropWhile isCRLF).reverse.dropWhile isCRLF).reverse with
    | nil => rw [hcore] at hb; simp at hb
    | cons c cs =>
      rw [hcore] at hb h3
      simp only [List.head?_cons, Option.mem_def, Option.some.injEq] at hb
      subst hb
      rw [h3] at hh
      simpa using hh
  · intro b hb
    rw [List.getLast?_reverse] at hb
    have hh := List.head?_dropWhile_not isCRLF (buf.dropWhile isCRLF).reverse
    rw [Option.mem_def] at hb
    rw [hb] at hh
    simpa using hh

/-! ## What a successful framed decoding has read -/

theorem Sscanf_range (c : Nat) (line : List Nat) (v : Int) (h : Sscanf c line = some v) :
    -2 ^ 63 ≤ v ∧ v < 2 ^ 63 := by
  obtain ⟨ws, sgn, ds, rest, _, _, _, _, _, _, hval⟩ := (Sscanf_iff c line v).1 h
  split_ifs at hval
  · obtain ⟨h1, h2⟩ := hval
    omega
  · obtain ⟨h1, h2⟩ := hval
    omega

theorem ReadAllLimit_ok (r r2 : Reader) (n : Int) (data : List Nat)
    (h : r.ReadAllLimit n = ((data, none), r2)) :
    r.buf = data ++ r2.buf ∧ r2.err = r.err := by
  unfold Reader.ReadAllLimit at h
  split_ifs at h with h1 h2
  · simp only [Prod.mk.injEq] at h
    obtain ⟨⟨hd, _⟩, hr⟩ := h
    subst hd; subst hr
    simp
  · simp only [Prod.mk.injEq] at h
    obtain ⟨⟨hd, _⟩, hr⟩ := h
    subst hd; subst hr
    simp
  · split at h
    · simp only [Prod.mk.injEq] at h
      obtain ⟨⟨hd, _⟩, hr⟩ := h
      subst hd; subst hr
      simp
    · simp at h

theorem ReadByte_ok (r r2 : Reader) (b : Nat) (h : r.ReadByte = (Except.ok b, r2)) :
    r.buf = b :: r2.buf ∧ r2.err = r.err := by
  unfold Reader.ReadByte at h
  split at h
  · simp at h
  · rename_i b' bs hbuf
    simp only [Prod.mk.injEq, Except.ok.injEq] at h
    obtain ⟨hb, hr⟩ := h
    subst hb; subst hr
    exact ⟨hbuf, rfl⟩

theorem readArgument_ok (r r' : Reader) (data : List Nat)
    (h : readArgument r = (Except.ok data, r')) :
    RecordOk ((r.ReadString 0x0A).1.1, data)
      ∧ r.buf = recordBytes ((r.ReadString 0x0A).1.1, data) ++ r'.buf
      ∧ r'.err = r.err := by
  rcases ReadString_cases r with ⟨l, rest, hbuf, hl, hRS⟩ | ⟨_, hRS⟩
  · unfold readArgument at h
    rw [hRS] at h ⊢
    simp only at h ⊢
    split at h
    · simp at h
    · rename_i argSize hS
      split at h
      · simp at h
      · rename_i data' r2 hA
        obtain ⟨hA1, hA2⟩ := ReadAllLimit_ok _ _ _ _ hA
        split_ifs at h with hlen
        · simp at h
        split at h
        · simp at h
        · rename_i b r3 hB
          obtain ⟨hB1, hB2⟩ := ReadByte_ok _ _ _ hB
          split_ifs at h with hb
          · simp at h
          split at h
          · simp at h
          · rename_i b2 r4 hB'
            obtain ⟨hC1, hC2⟩ := ReadByte_ok _ _ _ hB'
            split_ifs at h with hb2
            · simp at h
            simp only [Prod.mk.injEq, Except.ok.injEq] at h
            obtain ⟨hd, hr⟩ := h
            subst hd; subst hr
            have hb' : b = 0x0D := by simpa using hb
            have hb2' : b2 = 0x0A := by simpa using hb2
            have hlen' : (data'.length : Int) = argSize := by simpa using hlen
            subst hb'; subst hb2'
            refine ⟨⟨⟨l, rfl, hl⟩, ?_⟩, ?_, ?_⟩
            · rw [hS, hlen']
            · simp only at hA1 hA2
              rw [hbuf, hA1, hB1, hC1]
              simp [recordBytes]
            · rw [hC2, hB2, hA2]
  · unfold readArgument at h
    rw [hRS] at h
    simp at h

theorem readArgs_ok (n : Nat) (r r' : Reader) (as : List (List Nat))
    (h : readArgs n r = (Except.ok as, r')) :
    ∃ recs : List (List Nat × List Nat), recs.length = n ∧ recs.map Prod.snd = as
      ∧ (∀ rec ∈ recs, RecordOk rec)
      ∧ r.buf = recordsBytes recs ++ r'.buf ∧ r'.err = r.err := by
  induction n generalizing r as with
  | zero =>
    simp only [readArgs, Prod.mk.injEq, Except.ok.injEq] at h
    obtain ⟨has, hr⟩ := h
    subst has; subst hr
    exact ⟨[], rfl, rfl, by simp, by simp [recordsBytes], rfl⟩
  | succ n ih =>
    unfold readArgs at h
    split at h
    · simp at h
    · rename_i a r1 hA
      split at h
      · simp at h
      · rename_i rest r2 hAs
        simp only [Prod.mk.injEq, Except.ok.injEq] at h
        obtain ⟨has, hr⟩ := h
        subst has; subst hr
        obtain ⟨hok, hbuf, herr⟩ := readArgument_ok r r1 a hA
        obtain ⟨recs, hlen, hmap, hall, hbuf2, herr2⟩ := ih r1 rest hAs
        refine ⟨((r.ReadString 0x0A).1.1, a) :: recs, by simp [hlen], by simp [hmap], ?_, ?_,
          by rw [herr2, herr]⟩
        · intro rec hrec
          rcases List.mem_cons.1 hrec with rfl | hrec
          · exact hok
          · exact hall rec hrec
        · rw [hbuf, hbuf2]
          simp [recordsBytes]

theorem recordsBytes_length (recs : List (List Nat × List Nat)) :
    recs.length ≤ (recordsBytes recs).length := by
  induction recs with
  | nil => simp
  | cons rec rest ih =>
    simp only [recordsBytes, recordBytes, List.length_append, List.length_cons]
    simp only [List.length_nil]
    omega

theorem parseRequest_framed_ok (uni : List Nat → List Nat) (r r' : Reader) (req : Request)
    (N : Int) (hN : Sscanf 0x2A (r.ReadString 0x0A).1.1 = some N)
    (hok : parseRequest uni r = (Outcome.ok req, r')) :
    ¬ makeslicePanics (wrapInt (N - 1))
      ∧ ∃ (first : List Nat) (recs : List (List Nat × List Nat)),
          r.buf = (r.ReadString 0x0A).1.1 ++ recordsBytes recs ++ r'.buf
          ∧ recs.length = (wrapInt (N - 1)).toNat + 1
          ∧ recs.map Prod.snd = first :: req.args
          ∧ req.name = ToLower uni first
          ∧ (∀ rec ∈ recs, RecordOk rec)
          ∧ r'.err = r.err := by
  rcases ReadString_cases r with ⟨l, rest, hbuf, hl, hRS⟩ | ⟨_, hRS⟩
  · unfold parseRequest at hok
    rw [hRS] at hok hN
    simp only at hok hN
    simp only [hN] at hok
    split at hok
    · simp at hok
    · rename_i firstArg r2 hA
      obtain ⟨hrec, hbuf1, herr1⟩ := readArgument_ok _ r2 firstArg hA
      split_ifs at hok with hneg
      · simp at hok
      split at hok
      · simp at hok
      · rename_i args r3 hAs
        simp only [Prod.mk.injEq, Outcome.ok.injEq] at hok
        obtain ⟨hreq, hr⟩ := hok
        subst hreq; subst hr
        obtain ⟨recs, hlen, hmap, hall, hbuf2, herr2⟩ := readArgs_ok _ r2 r3 args hAs
        simp only at hbuf1 herr1
        generalize (Reader.ReadString ⟨rest, r.err⟩ 0x0A).1.1 = hdr at hrec hbuf1
        refine ⟨hneg, firstArg, (hdr, firstArg) :: recs, ?_,
          by simp [hlen], by simp [hmap], rfl, ?_, by rw [herr2, herr1]⟩
        · rw [hRS, hbuf, hbuf1, hbuf2]
          simp [recordsBytes]
        · intro rec hrec'
          rcases List.mem_cons.1 hrec' with rfl | hrec'
          · exact hrec
          · exact hall rec hrec'
  · unfold parseRequest at hok
    rw [hRS] at hok
    simp at hok

/-! ## Negative declared lengths -/

theorem decimal_length_le (n : Nat) (h : n ≤ 2 ^ 63) : (decimal n).length ≤ 19 := by
  rw [decimal_eq]
  split
  · simp
  · rename_i h0
    simp only [List.length_map, List.length_reverse]
    rw [Nat.digits_len 10 n (by norm_num) h0]
    have : Nat.log 10 n < 19 := Nat.log_lt_of_lt_pow h0 (by omega)
    omega

theorem Sscanf_negative_header (c k : Nat) (hc : c < 0x80) (hk : k ≤ 2 ^ 63) :
    Sscanf c (c :: 0x2D :: decimal k ++ [0x0D, 0x0A]) = some (-(k : Int)) := by
  have hdig := decimal_isDigit k
  have hlen := decimal_length_le k hk
  have hascii : ∀ b ∈ c :: 0x2D :: decimal k ++ [0x0D, 0x0A], b < 0x80 := by
    intro b hb
    simp only [List.cons_append, List.mem_cons, List.mem_append, List.mem_singleton,
      List.not_mem_nil, or_false] at hb
    rcases hb with rfl | rfl | hb | rfl | rfl
    · exact hc
    · norm_num
    · have := isDigit_bounds (hdig b hb); omega
    · norm_num
    · norm_num
  have htake : (c :: 0x2D :: decimal k ++ [0x0D, 0x0A]).take hugeWid
      = c :: 0x2D :: decimal k ++ [0x0D, 0x0A] := by
    apply List.take_of_length_le
    simp [hugeWid]; omega
  rw [Sscanf_iff]
  refine ⟨[], [0x2D], decimal k, [0x0D, 0x0A], ?_, by simp, Or.inr (Or.inr rfl),
    decimal_ne_nil k, hdig, ?_, ?_⟩
  · rw [runes_ascii _ hascii, htake]
    simp
  · intro x hx
    simp only [List.head?_cons, Option.mem_def, Option.some.injEq] at hx
    subst hx
    decide
  · simp only [if_true]
    rw [decimal_value]
    exact ⟨hk, rfl⟩

theorem readArgument_negative (k : Nat) (cont : List Nat) (e : SrcErr)
    (hk1 : 1 ≤ k) (hk : k ≤ 2 ^ 63) :
    readArgument ⟨0x24 :: 0x2D :: decimal k ++ [0x0D, 0x0A] ++ cont, e⟩
      = (Except.error (malformedLength (-(k : Int)) 0), ⟨cont, e⟩) := by
  have hno : 0x0A ∉ 0x24 :: 0x2D :: decimal k ++ [0x0D] := by
    intro hmem
    simp only [List.cons_append, List.mem_cons, List.mem_append, List.mem_singleton,
      List.not_mem_nil, or_false] at hmem
    rcases hmem with h | h | h | h
    · omega
    · omega
    · have := isDigit_bounds (decimal_isDigit k _ h); omega
    · omega
  have hR := ReadString_line (0x24 :: 0x2D :: decimal k ++ [0x0D]) cont e hno
  have hshape : 0x24 :: 0x2D :: decimal k ++ [0x0D, 0x0A] ++ cont
      = (0x24 :: 0x2D :: decimal k ++ [0x0D]) ++ 0x0A :: cont := by simp
  have hline : (0x24 :: 0x2D :: decimal k ++ [0x0D]) ++ [0x0A]
      = 0x24 :: 0x2D :: decimal k ++ [0x0D, 0x0A] := by simp
  have hS := Sscanf_negative_header 0x24 k (by decide) hk
  have hA : Reader.ReadAllLimit ⟨cont, e⟩ (-(k : Int)) = (([], none), ⟨cont, e⟩) := by
    unfold Reader.ReadAllLimit
    have : -(k : Int) ≤ 0 := by omega
    simp only [this, if_true]
  have hne : ((([] : List Nat).length : Nat) : Int) ≠ -(k : Int) := by
    simp only [List.length_nil]
    omega
  unfold readArgument
  rw [hshape, hR, hline]
  simp only [hS, hA, hne, ne_eq, not_false_eq_true, if_true]
  rfl

theorem parseRequest_zero_count (uni : List Nat → List Nat) (c : List Nat) (e : SrcErr) :
    parseRequest uni ⟨0x2A :: decimal 0 ++ [0x0D, 0x0A] ++ c, e⟩
      = match readArgument ⟨c, e⟩ with
        | (Except.error err, r2) => (Outcome.error err, r2)
        | (Except.ok _, r2) => (Outcome.panic "makeslice: len out of range", r2) := by
  have hR := ReadString_header 0x2A 0 c e (by decide)
  have hS := Sscanf_header 0x2A 0 (by decide) (by decide)
  unfold parseRequest
  rw [hR]
  simp only [hS]
  split
  · rfl
  · have hw : makeslicePanics (wrapInt (((0 : Nat) : Int) - 1)) := by decide
    simp only [hw, if_true]

/-- What the code does with a header line ending in its only newline:
`readArgument` returns the malformed-argument-length error (the line does not
match `$<argumentSize>`) exactly when the scan of `$%d\r` rejects the line, and
then nothing past the header line is read. -/
theorem malformed_argument_header (l rest : List Nat) (e : SrcErr) (hl : 0x0A ∉ l) :
    ((readArgument ⟨l ++ 0x0A :: rest, e⟩).1
          = Except.error (malformed "$<argumentSize>" (l ++ [0x0A]))
        ↔ ¬ ∃ v, HeaderForm 0x24 (l ++ [0x0A]) v)
      ∧ ((¬ ∃ v, HeaderForm 0x24 (l ++ [0x0A]) v) →
          (readArgument ⟨l ++ 0x0A :: rest, e⟩).2 = ⟨rest, e⟩) := by
  have hfail : (¬ ∃ v, HeaderForm 0x24 (l ++ [0x0A]) v) →
      readArgument ⟨l ++ 0x0A :: rest, e⟩
        = (Except.error (malformed "$<argumentSize>" (l ++ [0x0A])), ⟨rest, e⟩) := by
    intro hform
    have hS := (Sscanf_none_iff 0x24 (l ++ [0x0A])).2 hform
    unfold readArgument
    rw [ReadString_line l rest e hl]
    simp only [hS]
  refine ⟨⟨?_, fun hform => by rw [hfail hform]⟩, fun hform => by rw [hfail hform]⟩
  intro hres hform
  obtain ⟨v, hv⟩ := hform
  exact readArgument_scanned l rest e v hl ((Sscanf_iff 0x24 _ v).2 hv) hres

/-- The header lines `foo`, `$`, `$abc` and `*3` are answered with the
malformed-argument-length error and the payload that follows is left unread. -/
theorem malformed_argument_header_witness :
    ((readArgument ⟨ascii "foo\r\nbar\r\n", SrcErr.eof⟩).1
        = Except.error (malformed "$<argumentSize>" (ascii "foo\r\n"))
      ∧ (readArgument ⟨ascii "foo\r\nbar\r\n", SrcErr.eof⟩).2 = ⟨ascii "bar\r\n", SrcErr.eof⟩)
    ∧ (readArgument ⟨ascii "$\r\nbar\r\n", SrcErr.eof⟩).1
        = Except.error (malformed "$<argumentSize>" (ascii "$\r\n"))
    ∧ (readArgument ⟨ascii "$abc\r\nbar\r\n", SrcErr.eof⟩).1
        = Except.error (malformed "$<argumentSize>" (ascii "$abc\r\n"))
    ∧ (readArgument ⟨ascii "*3\r\nbar\r\n", SrcErr.eof⟩).1
        = Except.error (malformed "$<argumentSize>" (ascii "*3\r\n")) :=
  ⟨⟨(malformed_argument_header (ascii "foo\r") (ascii "bar\r\n") SrcErr.eof (by decide)).1.2
      ((Sscanf_none_iff 0x24 (ascii "foo\r\n")).1 rfl),
    (malformed_argument_header (ascii "foo\r") (ascii "bar\r\n") SrcErr.eof (by decide)).2
      ((Sscanf_none_iff 0x24 (ascii "foo\r\n")).1 rfl)⟩,
   (malformed_argument_header (ascii "$\r") (ascii "bar\r\n") SrcErr.eof (by decide)).1.2
      ((Sscanf_none_iff 0x24 (ascii "$\r\n")).1 rfl),
   (malformed_argument_header (ascii "$abc\r") (ascii "bar\r\n") SrcErr.eof (by decide)).1.2
      ((Sscanf_none_iff 0x24 (ascii "$abc\r\n")).1 rfl),
   (malformed_argument_header (ascii "*3\r") (ascii "bar\r\n") SrcErr.eof (by decide)).1.2
      ((Sscanf_none_iff 0x24 (ascii "*3\r\n")).1 rfl)⟩

/-! ## Records followed by an argument that fails -/

theorem readArgument_record (rec : List Nat × List Nat) (rest : List Nat) (e : SrcErr)
    (h : RecordOk rec) :
    readArgument ⟨recordBytes rec ++ rest, e⟩ = (Except.ok rec.2, ⟨rest, e⟩) := by
  obtain ⟨⟨l, hl1, hl⟩, hS⟩ := h
  have hshape : recordBytes rec ++ rest = l ++ 0x0A :: (rec.2 ++ (0x0D :: 0x0A :: rest)) := by
    simp [recordBytes, hl1]
  have hR := ReadString_line l (rec.2 ++ (0x0D :: 0x0A :: rest)) e hl
  have hA := ReadAllLimit_exact rec.2 (0x0D :: 0x0A :: rest) e
  rw [hl1] at hS
  unfold readArgument
  rw [hshape, hR]
  simp only [hS, hA]
  simp [Reader.ReadByte]

theorem readArgs_records_error (pre : List (List Nat × List Nat)) (n : Nat) (bad : List Nat)
    (e : SrcErr) (err : Err) (r : Reader) (hpre : ∀ rec ∈ pre, RecordOk rec)
    (hn : pre.length < n) (hbad : readArgument ⟨bad, e⟩ = (Except.error err, r)) :
    readArgs n ⟨recordsBytes pre ++ bad, e⟩ = (Except.error err, r) := by
  induction pre generalizing n with
  | nil =>
    obtain ⟨m, rfl⟩ : ∃ m, n = m + 1 := ⟨n - 1, by simp at hn; omega⟩
    simp only [recordsBytes, List.nil_append, readArgs, hbad]
  | cons rec rest ih =>
    obtain ⟨m, rfl⟩ : ∃ m, n = m + 1 := ⟨n - 1, by simp at hn; omega⟩
    have h1 := readArgument_record rec (recordsBytes rest ++ bad) e (hpre rec (by simp))
    have h2 := ih m (fun b hb => hpre b (by simp [hb])) (by simp at hn; omega)
    simp only [recordsBytes, List.append_assoc, readArgs, h1, h2]

/-- A first line scanned as a frame header with the count `N`, then
`pre.length < N` records that `readArgument` accepts, then an argument on which
`readArgument` fails: `parseRequest` returns that error when the failing
argument is the first one or `make` allocates `args`, and it panics in `make`
otherwise. -/
theorem parseRequest_records_error (uni : List Nat → List Nat) (l : List Nat) (N : Int)
    (pre : List (List Nat × List Nat)) (bad : List Nat) (e : SrcErr) (err : Err)
    (r : Reader) (hl : 0x0A ∉ l) (hS : Sscanf 0x2A (l ++ [0x0A]) = some N)
    (hpre : ∀ rec ∈ pre, RecordOk rec) (hn : (pre.length : Int) < N)
    (hbad : readArgument ⟨bad, e⟩ = (Except.error err, r)) :
    (pre = [] ∨ ¬ makeslicePanics (wrapInt (N - 1)) →
        parseRequest uni ⟨l ++ 0x0A :: (recordsBytes pre ++ bad), e⟩ = (Outcome.error err, r))
      ∧ (¬ pre = [] → makeslicePanics (wrapInt (N - 1)) →
        (parseRequest uni ⟨l ++ 0x0A :: (recordsBytes pre ++ bad), e⟩).1
          = Outcome.panic "makeslice: len out of range") := by
  obtain ⟨hlo, hhi⟩ := Sscanf_range _ _ _ hS
  have hR := ReadString_line l (recordsBytes pre ++ bad) e hl
  cases pre with
  | nil =>
    constructor
    · intro _
      unfold parseRequest
      rw [hR]
      simp only [hS, recordsBytes, List.nil_append, hbad]
    · intro h
      exact absurd rfl h
  | cons rec rest =>
    have h1 := readArgument_record rec (recordsBytes rest ++ bad) e (hpre rec (by simp))
    have hw : wrapInt (N - 1) = N - 1 := by
      apply wrapInt_of_range
      · omega
      · omega
    have hlen : rest.length < (wrapInt (N - 1)).toNat := by
      rw [hw]
      simp only [List.length_cons, Nat.cast_add, Nat.cast_one] at hn
      omega
    have h2 := readArgs_records_error rest _ bad e err r
      (fun b hb => hpre b (by simp [hb])) hlen hbad
    constructor
    · intro hmk
      have hnp : ¬ makeslicePanics (wrapInt (N - 1)) := by
        rcases hmk with h | h
        · exact absurd h (by simp)
        · exact h
      unfold parseRequest
      rw [hR]
      simp only [hS, recordsBytes, List.append_assoc, h1, hnp, if_false, h2]
    · intro _ hp
      unfold parseRequest
      rw [hR]
      simp only [hS, recordsBytes, List.append_assoc, h1, hp, if_true]

/-- The allocation of `args` at a count that `make` cannot serve: after the
header `*4611686018427387904` (the count `2^62`) and one well-formed argument,
`make([][]byte, argsCount-1)` panics, whatever follows. -/
theorem parseRequest_panics_on_huge_count :
    (parseRequest (fun s => s)
        ⟨ascii "*4611686018427387904\r\n$3\r\nGET\r\n$5\r\nfoo", SrcErr.eof⟩).1
      = Outcome.panic "makeslice: len out of range" := by
  rfl

/-! ## The claims -/

/-- C1: for every `N >= 1` and every list of `N` arguments (arbitrary bytes,
each of a length in the range of `int`) of which the `N-1` after the first fit
the slice `args` that `make` allocates, `parseRequest` on the framed encoding
`*N\r\n` followed by `$<len>\r\n<bytes>\r\n` for each argument returns a
`Request` whose name is the lower-cased first argument and whose `args` are the
other arguments, in order and unmodified, `N-1` of them. -/
theorem framed_request_decodes (uni : List Nat → List Nat) (a : List Nat)
    (as : List (List Nat)) (e : SrcErr)
    (hN : sliceHeaderSize * as.length ≤ maxAlloc)
    (hlen : ∀ x ∈ a :: as, x.length < 2 ^ 63) :
    (parseRequest uni ⟨encodeRequest (a :: as), e⟩).1
        = Outcome.ok { name := ToLower uni a, args := as }
      ∧ as.length = (a :: as).length - 1 := by
  have h := parseRequest_encodeRequest uni a as [] e hN hlen
  rw [List.append_nil] at h
  rw [h]
  exact ⟨rfl, by simp⟩

/-- The framed example of C1: `*3 $3 SET $3 foo $3 bar` decodes to the name
`set` with the arguments `foo` and `bar`. -/
theorem framed_request_decodes_witness :
    (parseRequest (fun s => s)
        ⟨ascii "*3\r\n$3\r\nSET\r\n$3\r\nfoo\r\n$3\r\nbar\r\n", SrcErr.eof⟩).1
      = Outcome.ok { name := ascii "set", args := [ascii "foo", ascii "bar"] } :=
  (framed_request_decodes (fun s => s) (ascii "SET") [ascii "foo", ascii "bar"]
    SrcErr.eof (by decide) (by decide)).1

/-- C2: `parseRequest` does panic on some inputs. A frame header with the
count 0 or with a negative count, followed by one well-formed argument, reaches
`make([][]byte, argsCount-1)` with a negative length. -/
theorem parseRequest_panics_on_count_below_one :
    (parseRequest (fun s => s) ⟨ascii "*0\r\n$4\r\nPING\r\n", SrcErr.eof⟩).1
        = Outcome.panic "makeslice: len out of range"
      ∧ (parseRequest (fun s => s) ⟨ascii "*-1\r\n$4\r\nPING\r\n", SrcErr.eof⟩).1
        = Outcome.panic "makeslice: len out of range" := by
  constructor <;> rfl

/-- C3: `parseRequest` consumes exactly the bytes of one request. For
well-formed requests `w1` and `w2` (framed or inline) and every suffix `s`, the
call on `w1 ++ s` returns the request of `w1` and leaves exactly `s` in the
source; on `w1 ++ w2` the first call returns the request of `w1` and a second
call on the same source returns the request of `w2`. More generally every line
`l` that ends in its only newline and does not begin with `*` is decoded by
`readInline` and exactly `s` is left after it. -/
theorem consumes_exactly_one_request (uni : List Nat → List Nat) (w1 w2 : Wire)
    (l s : List Nat) (e : SrcErr) (h1 : w1.WellFormed) (h2 : w2.WellFormed)
    (hl : 0x0A ∉ l) (hhead : (l ++ [0x0A]).head? ≠ some 0x2A) :
    parseRequest uni ⟨w1.bytes ++ s, e⟩ = (Outcome.ok (w1.request uni), ⟨s, e⟩)
      ∧ (parseRequest uni ⟨w1.bytes ++ w2.bytes, e⟩).1 = Outcome.ok (w1.request uni)
      ∧ parseRequest uni (parseRequest uni ⟨w1.bytes ++ w2.bytes, e⟩).2
        = (Outcome.ok (w2.request uni), ⟨[], e⟩)
      ∧ ∃ req, readInline uni (l ++ [0x0A]) = Outcome.ok req
        ∧ parseRequest uni ⟨l ++ 0x0A :: s, e⟩ = (Outcome.ok req, ⟨s, e⟩) := by
  have hs := parseRequest_wire uni w1 s e h1
  have ha := parseRequest_wire uni w1 w2.bytes e h1
  have hb := parseRequest_wire uni w2 [] e h2
  rw [List.append_nil] at hb
  refine ⟨hs, ?_, ?_, parseRequest_inline_line uni l s e hl hhead⟩
  · rw [ha]
  · rw [ha]; exact hb

/-- A framed `SET foo bar` followed by an inline `PING`, then two bytes of a
third request: the first call leaves `*1` behind, and on the two requests back
to back the second call decodes `PING`. The line `get  a` with its two spaces
is decoded with an empty first argument and `*1` is left after it. -/
theorem consumes_exactly_one_request_witness :
    (Wire.framed (ascii "SET") [ascii "foo", ascii "bar"]).WellFormed
      ∧ (Wire.inline (ascii "PING") [] true).WellFormed
      ∧ parseRequest (fun s => s)
          ⟨ascii "*3\r\n$3\r\nSET\r\n$3\r\nfoo\r\n$3\r\nbar\r\n" ++ ascii "*1", SrcErr.eof⟩
        = (Outcome.ok { name := ascii "set", args := [ascii "foo", ascii "bar"] },
            ⟨ascii "*1", SrcErr.eof⟩)
      ∧ parseRequest (fun s => s) (parseRequest (fun s => s)
          ⟨ascii "*3\r\n$3\r\nSET\r\n$3\r\nfoo\r\n$3\r\nbar\r\n" ++ ascii "PING\r\n",
            SrcErr.eof⟩).2
        = (Outcome.ok { name := ascii "ping", args := [] }, ⟨[], SrcErr.eof⟩)
      ∧ parseRequest (fun s => s) ⟨ascii "get  a\r\n" ++ ascii "*1", SrcErr.eof⟩
        = (Outcome.ok { name := ascii "get", args := [[], ascii "a"] },
            ⟨ascii "*1", SrcErr.eof⟩) := by
  have hw1 : (Wire.framed (ascii "SET") [ascii "foo", ascii "bar"]).WellFormed :=
    ⟨by decide, by decide⟩
  have hw2 : (Wire.inline (ascii "PING") [] true).WellFormed :=
    ⟨by decide, by decide⟩
  have h := consumes_exactly_one_request (fun s => s)
    (Wire.framed (ascii "SET") [ascii "foo", ascii "bar"])
    (Wire.inline (ascii "PING") [] true) (ascii "get  a\r") (ascii "*1") SrcErr.eof hw1 hw2
    (by decide) (by decide)
  obtain ⟨req, hreq, hparse⟩ := h.2.2.2
  have hreq' : readInline (fun s => s) (ascii "get  a\r" ++ [0x0A])
      = Outcome.ok { name := ascii "get", args := [[], ascii "a"] } := rfl
  rw [hreq'] at hreq
  cases hreq
  exact ⟨hw1, hw2, h.1, h.2.2.1, hparse⟩

/-- C4: inline decoding. For tokens `t_0 .. t_k` without space, carriage
return or newline (empty tokens allowed), `t_0` not beginning with `*`,
`parseRequest` on the tokens joined by single spaces and terminated by `\r\n`
or by `\n` returns the name `t_0` lower-cased and the arguments `t_1 .. t_k`
unmodified, `k` of them. -/
theorem inline_request_decodes (uni : List Nat → List Nat) (t : List Nat)
    (ts : List (List Nat)) (crlf : Bool) (e : SrcErr)
    (hno : ∀ x ∈ t :: ts, ∀ b ∈ x, b ≠ 0x20 ∧ b ≠ 0x0D ∧ b ≠ 0x0A)
    (hstar : t.head? ≠ some 0x2A) :
    (parseRequest uni ⟨encodeInline (t :: ts) crlf, e⟩).1
        = Outcome.ok { name := ToLower uni t, args := ts }
      ∧ ts.length = (t :: ts).length - 1 := by
  have h := parseRequest_encodeInline uni t ts crlf [] e hno hstar
  rw [List.append_nil] at h
  rw [h]
  exact ⟨rfl, by simp⟩

/-- The inline example of C4: `SET foo bar` decodes to the name `set` with the
arguments `foo` and `bar`. -/
theorem inline_request_decodes_witness :
    (parseRequest (fun s => s) ⟨ascii "SET foo bar\r\n", SrcErr.eof⟩).1
      = Outcome.ok { name := ascii "set", args := [ascii "foo", ascii "bar"] } :=
  (inline_request_decodes (fun s => s) (ascii "SET") [ascii "foo", ascii "bar"] true
    SrcErr.eof (by decide) (by decide)).1

/-- C5: the first line `*-1` is scanned as a frame header with the count -1;
`parseRequest` goes on to read an argument and, the source being at its end,
returns the error of `readArgument`. The inline request of the claim (name
`*-1`, no arguments) is what `readInline` would have returned. -/
theorem negative_count_is_scanned_as_header :
    Sscanf 0x2A (ascii "*-1\r\n") = some (-1)
      ∧ (parseRequest (fun s => s) ⟨ascii "*-1\r\n", SrcErr.eof⟩).1
        = Outcome.error (malformed "$<argumentLength>" [])
      ∧ readInline (fun s => s) (ascii "*-1\r\n")
        = Outcome.ok { name := ascii "*-1", args := [] } := by
  refine ⟨?_, ?_, ?_⟩ <;> rfl

/-- C6: length mismatch. When the source ends `g < M` bytes after the header
line `$M\r\n` (so `M > 0`), `readArgument` fails with the length-mismatch
error, whose declared length is `M` and whose length got is `g`, and so does
`parseRequest` on a framed request that reaches this argument after
`pre.length < N` well-formed arguments (the argument being the first one, or
`make` allocating the `N-1` entries of `args`): the `g` bytes are never
returned as an argument. -/
theorem length_mismatch (uni : List Nat → List Nat) (M : Nat) (p : List Nat) (N : Nat)
    (pre : List (List Nat)) (hM : M < 2 ^ 63) (hg : p.length < M)
    (hN : N < 2 ^ 63) (hmk : pre = [] ∨ sliceHeaderSize * (N - 1) ≤ maxAlloc)
    (hpre : ∀ a ∈ pre, a.length < 2 ^ 63) (hn : pre.length < N) :
    (readArgument ⟨0x24 :: decimal M ++ [0x0D, 0x0A] ++ p, SrcErr.eof⟩).1
        = Except.error (Err.malformedLength (M : Int) (p.length : Int))
      ∧ (parseRequest uni ⟨0x2A :: decimal N ++ [0x0D, 0x0A]
            ++ (encodeArgs pre ++ (0x24 :: decimal M ++ [0x0D, 0x0A] ++ p)), SrcErr.eof⟩).1
        = Outcome.error (Err.malformedLength (M : Int) (p.length : Int)) := by
  have h := readArgument_short M p hM hg
  constructor
  · rw [h]
    rfl
  · rw [parseRequest_argument_error uni N pre _ SrcErr.eof _ _ hN hmk hpre hn h]
    rfl

/-- The example of C6: `$5` followed by the three bytes `foo` and the end of
the source, alone and as the second argument of a framed request: the error
carries the declared length 5 and the length got 3. -/
theorem length_mismatch_witness :
    (readArgument ⟨ascii "$5\r\nfoo", SrcErr.eof⟩).1
        = Except.error (Err.malformedLength 5 3)
      ∧ (parseRequest (fun s => s) ⟨ascii "*2\r\n$3\r\nGET\r\n$5\r\nfoo", SrcErr.eof⟩).1
        = Outcome.error (Err.malformedLength 5 3) :=
  length_mismatch (fun s => s) 5 (ascii "foo") 2 [ascii "GET"] (by decide) (by decide)
    (by decide) (Or.inr (by decide)) (by decide) (by decide)

/-- C8: case normalization. Whenever `parseRequest` succeeds, the name has no
ASCII upper-case letter and is the lower-case form of the first token of the
line (inline) or of the first argument read (framed), the arguments being the
other tokens or the other arguments read. Two well-formed requests, framed or
inline, whose ASCII command names differ only in letter case decode to the same
lower-case name, and their arguments come out as they were sent, not
case-folded. The hypothesis on `uni` states that the Unicode lower-casing of the
library produces no ASCII upper-case letter. -/
theorem case_normalization (uni : List Nat → List Nat)
    (hU : ∀ s, ∀ b ∈ uni s, ¬ (0x41 ≤ b ∧ b ≤ 0x5A)) :
    (∀ (r : Reader) (req : Request) (r' : Reader),
        parseRequest uni r = (Outcome.ok req, r') →
        (∀ b ∈ req.name, ¬ (0x41 ≤ b ∧ b ≤ 0x5A))
          ∧ ∃ first, req.name = ToLower uni first
            ∧ ((Sscanf 0x2A (r.ReadString 0x0A).1.1 = none
                  ∧ Split (Trim (r.ReadString 0x0A).1.1) 0x20 = first :: req.args)
                ∨ (∃ n, Sscanf 0x2A (r.ReadString 0x0A).1.1 = some n
                  ∧ (readArgument (r.ReadString 0x0A).2).1 = Except.ok first
                  ∧ (readArgs (wrapInt (n - 1)).toNat
                      (readArgument (r.ReadString 0x0A).2).2).1 = Except.ok req.args)))
      ∧ (∀ (a a' : List Nat) (as : List (List Nat)) (e : SrcErr),
          (Wire.framed a as).WellFormed → (Wire.framed a' as).WellFormed →
          (∀ b ∈ a, b < 0x80) → (∀ b ∈ a', b < 0x80) →
          a.map lowerByte = a'.map lowerByte →
          (parseRequest uni ⟨encodeRequest (a :: as), e⟩).1
              = Outcome.ok { name := a.map lowerByte, args := as }
            ∧ (parseRequest uni ⟨encodeRequest (a' :: as), e⟩).1
              = Outcome.ok { name := a.map lowerByte, args := as })
      ∧ (∀ (t t' : List Nat) (ts : List (List Nat)) (crlf : Bool) (e : SrcErr),
          (Wire.inline t ts crlf).WellFormed → (Wire.inline t' ts crlf).WellFormed →
          (∀ b ∈ t, b < 0x80) → (∀ b ∈ t', b < 0x80) →
          t.map lowerByte = t'.map lowerByte →
          (parseRequest uni ⟨encodeInline (t :: ts) crlf, e⟩).1
              = Outcome.ok { name := t.map lowerByte, args := ts }
            ∧ (parseRequest uni ⟨encodeInline (t' :: ts) crlf, e⟩).1
              = Outcome.ok { name := t.map lowerByte, args := ts }) := by
  refine ⟨?_, ?_, ?_⟩
  · intro r req r' h
    obtain ⟨first, hname, hrest⟩ := parseRequest_ok_cases uni r req r' h
    refine ⟨?_, first, hname, hrest⟩
    rw [hname]
    exact ToLower_not_upper uni hU first
  · intro a a' as e hw hw' ha ha' hcase
    have h1 := parseRequest_encodeRequest uni a as [] e hw.1 hw.2
    have h2 := parseRequest_encodeRequest uni a' as [] e hw'.1 hw'.2
    rw [List.append_nil] at h1 h2
    rw [h1, h2, ToLower_ascii uni a ha, ToLower_ascii uni a' ha', hcase]
    exact ⟨rfl, rfl⟩
  · intro t t' ts crlf e hw hw' ht ht' hcase
    have h1 := parseRequest_encodeInline uni t ts crlf [] e hw.1 hw.2
    have h2 := parseRequest_encodeInline uni t' ts crlf [] e hw'.1 hw'.2
    rw [List.append_nil] at h1 h2
    rw [h1, h2, ToLower_ascii uni t ht, ToLower_ascii uni t' ht', hcase]
    exact ⟨rfl, rfl⟩

/-- The examples of C8, with the ASCII lower-casing standing for the library's
Unicode lower-casing: `GET` and `GeT` with the argument `FoO` both decode to
the name `get` and the argument `FoO`, framed and inline; the name of a
successful decoding has no upper-case letter. -/
theorem case_normalization_witness :
    (∀ s, ∀ b ∈ (fun l : List Nat => l.map lowerByte) s, ¬ (0x41 ≤ b ∧ b ≤ 0x5A))
      ∧ ((parseRequest (fun l => l.map lowerByte)
            ⟨ascii "*2\r\n$3\r\nGET\r\n$3\r\nFoO\r\n", SrcErr.eof⟩).1
          = Outcome.ok { name := ascii "get", args := [ascii "FoO"] }
        ∧ (parseRequest (fun l => l.map lowerByte)
            ⟨ascii "*2\r\n$3\r\nGeT\r\n$3\r\nFoO\r\n", SrcErr.eof⟩).1
          = Outcome.ok { name := ascii "get", args := [ascii "FoO"] })
      ∧ ((parseRequest (fun l => l.map lowerByte) ⟨ascii "get FoO\r\n", SrcErr.eof⟩).1
          = Outcome.ok { name := ascii "get", args := [ascii "FoO"] }
        ∧ (parseRequest (fun l => l.map lowerByte) ⟨ascii "GeT FoO\r\n", SrcErr.eof⟩).1
          = Outcome.ok { name := ascii "get", args := [ascii "FoO"] })
      ∧ ∀ b ∈ ascii "get", ¬ (0x41 ≤ b ∧ b ≤ 0x5A) :=
  have hU : ∀ s, ∀ b ∈ (fun l : List Nat => l.map lowerByte) s, ¬ (0x41 ≤ b ∧ b ≤ 0x5A) :=
    fun s b hb => by
      obtain ⟨x, _, rfl⟩ := List.mem_map.1 hb
      exact lowerByte_not_upper x
  have h := case_normalization (fun l => l.map lowerByte) hU
  ⟨hU,
   h.2.1 (ascii "GET") (ascii "GeT") [ascii "FoO"] SrcErr.eof ⟨by decide, by decide⟩
     ⟨by decide, by decide⟩ (by decide) (by decide) (by decide),
   h.2.2 (ascii "get") (ascii "GeT") [ascii "FoO"] true SrcErr.eof ⟨by decide, by decide⟩
     ⟨by decide, by decide⟩ (by decide) (by decide) (by decide),
   (h.1 ⟨ascii "*2\r\n$3\r\nGET\r\n$3\r\nFoO\r\n", SrcErr.eof⟩
     { name := ascii "get", args := [ascii "FoO"] } ⟨[], SrcErr.eof⟩ (by rfl)).1⟩

/-- C9, at a concrete input: the source fails with an I/O error in the middle
of the header line of the first argument (`$3` without a newline), and
`parseRequest` returns a `Mailformed request` error carrying the bytes read,
not the error of the source. -/
theorem header_read_failure_replaced :
    (parseRequest (fun s => s) ⟨ascii "*1\r\n$3", SrcErr.io 7⟩).1
        = Outcome.error (malformed "$<argumentLength>" (ascii "$3"))
      ∧ (parseRequest (fun s => s) ⟨ascii "*1\r\n$3", SrcErr.io 7⟩).1
        ≠ Outcome.error (Err.src (SrcErr.io 7)) := by
  constructor
  · rfl
  · decide

/-- C9 as amended. When the read of the first line fails, `parseRequest`
returns the error of the source unchanged. When the read of an argument header
line fails inside a framed request (after `pre.length < N` well-formed
arguments), it returns the error `malformed("$<argumentLength>", line)` with
the bytes read so far. When the source fails while a payload is read, with an
I/O error other than the end of the source, that error is returned unchanged.
In the last two cases the failing argument is the first one, or `make`
allocates the `N-1` entries of `args`. -/
theorem source_errors (uni : List Nat → List Nat) (l : List Nat) (e : SrcErr) (N : Nat)
    (pre : List (List Nat)) (M : Nat) (p : List Nat) (code : Nat)
    (hl : 0x0A ∉ l) (hN : N < 2 ^ 63)
    (hmk : pre = [] ∨ sliceHeaderSize * (N - 1) ≤ maxAlloc)
    (hpre : ∀ a ∈ pre, a.length < 2 ^ 63)
    (hn : pre.length < N) (hM : M < 2 ^ 63) (hg : p.length < M) :
    (parseRequest uni ⟨l, e⟩).1 = Outcome.error (Err.src e)
      ∧ (parseRequest uni
          ⟨0x2A :: decimal N ++ [0x0D, 0x0A] ++ (encodeArgs pre ++ l), e⟩).1
        = Outcome.error (Err.malformed "$<argumentLength>" l)
      ∧ (parseRequest uni ⟨0x2A :: decimal N ++ [0x0D, 0x0A]
            ++ (encodeArgs pre ++ (0x24 :: decimal M ++ [0x0D, 0x0A] ++ p)),
            SrcErr.io code⟩).1
        = Outcome.error (Err.src (SrcErr.io code)) := by
  refine ⟨?_, ?_, ?_⟩
  · unfold parseRequest
    rw [ReadString_fail l e hl]
  · rw [parseRequest_argument_error uni N pre l e _ _ hN hmk hpre hn
      (readArgument_header_fail l e hl)]
    rfl
  · rw [parseRequest_argument_error uni N pre _ (SrcErr.io code) _ _ hN hmk hpre hn
      (readArgument_payload_io M p code hM hg)]

/-- Three sources that fail with the I/O error 7: in the first line, in the
header line of the second argument, and in the payload of the second
argument. -/
theorem source_errors_witness :
    (parseRequest (fun s => s) ⟨ascii "$3", SrcErr.io 7⟩).1
        = Outcome.error (Err.src (SrcErr.io 7))
      ∧ (parseRequest (fun s => s) ⟨ascii "*2\r\n$3\r\nGET\r\n" ++ ascii "$3", SrcErr.io 7⟩).1
        = Outcome.error (Err.malformed "$<argumentLength>" (ascii "$3"))
      ∧ (parseRequest (fun s => s) ⟨ascii "*2\r\n$3\r\nGET\r\n$5\r\nfoo", SrcErr.io 7⟩).1
        = Outcome.error (Err.src (SrcErr.io 7)) :=
  source_errors (fun s => s) (ascii "$3") (SrcErr.io 7) 2 [ascii "GET"] 5 (ascii "foo") 7
    (by decide) (by decide) (Or.inr (by decide)) (by decide) (by decide) (by decide)
    (by decide)

/-- C10: the header of an argument is not checked against `$<size>\r\n`. The
header line `$ 3` (a space before the digits) is not a `$` followed by digits
and a carriage return, yet `readArgument` reads the payload `foo` after it and
returns it as an argument. The header line `$-1`, one of the lines the claim
lists, is not answered with the malformed-argument-length error: it is scanned
as the length -1 and fails the comparison of lengths. -/
theorem signed_or_spaced_header_is_scanned :
    (¬ ∃ ds : List Nat, (∀ d ∈ ds, isDigit d = true)
        ∧ ascii "$ 3\r\n" = 0x24 :: ds ++ [0x0D, 0x0A])
      ∧ readArgument ⟨ascii "$ 3\r\nfoo\r\n", SrcErr.eof⟩
        = (Except.ok (ascii "foo"), ⟨[], SrcErr.eof⟩)
      ∧ (¬ ∃ ds : List Nat, (∀ d ∈ ds, isDigit d = true)
        ∧ ascii "$-1\r\n" = 0x24 :: ds ++ [0x0D, 0x0A])
      ∧ Sscanf 0x24 (ascii "$-1\r\n") = some (-1)
      ∧ (readArgument ⟨ascii "$-1\r\n", SrcErr.eof⟩).1
        = Except.error (Err.malformedLength (-1) 0)
      ∧ (readArgument ⟨ascii "$-1\r\n", SrcErr.eof⟩).1
        ≠ Except.error (Err.malformed "$<argumentSize>" (ascii "$-1\r\n")) := by
  refine ⟨?c, rfl, ?a, rfl, rfl, ?b⟩
  case a =>
    rintro ⟨ds, hds, h⟩
    have h' : ascii "$-1\r\n" = 0x24 :: 0x2D :: [0x31, 0x0D, 0x0A] := rfl
    rw [h'] at h
    cases ds with
    | nil => simp at h
    | cons d ds =>
      have hd := hds d (by simp)
      simp only [List.cons_append, List.cons.injEq, true_and] at h
      rw [← h.1] at hd
      simp [isDigit] at hd
  case b =>
    intro h
    have h2 : (readArgument ⟨ascii "$-1\r\n", SrcErr.eof⟩).1
        = Except.error (Err.malformedLength (-1) 0) := rfl
    rw [h2] at h
    simp at h
  case c =>
    rintro ⟨ds, hds, h⟩
    have h' : ascii "$ 3\r\n" = 0x24 :: 0x20 :: [0x33, 0x0D, 0x0A] := rfl
    rw [h'] at h
    cases ds with
    | nil => simp at h
    | cons d ds =>
      have hd := hds d (by simp)
      simp only [List.cons_append, List.cons.injEq, true_and] at h
      rw [← h.1] at hd
      simp [isDigit] at hd

/-- C11: two-path dispatch. For a first line ending in its only newline on
which the scan of the frame header `*%d\r` fails, `parseRequest` returns the
request `readInline` returns for that line, leaves in the source exactly what
follows the line, and returns the malformed-framing error (the line does not
match `*<numberOfArguments>`) exactly when `readInline` returns an error. -/
theorem two_path_dispatch (uni : List Nat → List Nat) (l s : List Nat) (e : SrcErr)
    (hl : 0x0A ∉ l) (hS : Sscanf 0x2A (l ++ [0x0A]) = none) :
    (∀ req, readInline uni (l ++ [0x0A]) = Outcome.ok req →
        parseRequest uni ⟨l ++ 0x0A :: s, e⟩ = (Outcome.ok req, ⟨s, e⟩))
      ∧ (parseRequest uni ⟨l ++ 0x0A :: s, e⟩).2 = ⟨s, e⟩
      ∧ ((parseRequest uni ⟨l ++ 0x0A :: s, e⟩).1
            = Outcome.error (malformed "*<numberOfArguments>" (l ++ [0x0A]))
          ↔ ∃ err, readInline uni (l ++ [0x0A]) = Outcome.error err) := by
  have h := parseRequest_dispatch uni l s e hl hS
  refine ⟨?_, ?_, ?_⟩
  · intro req hreq
    rw [h, hreq]
  · rw [h]
  · rw [h]
    cases hI : readInline uni (l ++ [0x0A]) with
    | ok req => simp
    | error err => simp
    | panic msg => simp

/-- The examples of C11: on the first lines `*abc`, `*` and `PING` the scan of
the frame header fails; the call returns the inline request and leaves the
bytes `$3` that follow the line unread. -/
theorem two_path_dispatch_witness :
    parseRequest (fun s => s) ⟨ascii "*abc\r\n" ++ ascii "$3", SrcErr.eof⟩
        = (Outcome.ok { name := ascii "*abc", args := [] }, ⟨ascii "$3", SrcErr.eof⟩)
      ∧ parseRequest (fun s => s) ⟨ascii "*\r\n" ++ ascii "$3", SrcErr.eof⟩
        = (Outcome.ok { name := ascii "*", args := [] }, ⟨ascii "$3", SrcErr.eof⟩)
      ∧ parseRequest (fun s => s) ⟨ascii "PING\r\n" ++ ascii "$3", SrcErr.eof⟩
        = (Outcome.ok { name := ascii "ping", args := [] }, ⟨ascii "$3", SrcErr.eof⟩) :=
  ⟨(two_path_dispatch (fun s => s) (ascii "*abc\r") (ascii "$3") SrcErr.eof
      (by decide) rfl).1 _ rfl,
   (two_path_dispatch (fun s => s) (ascii "*\r") (ascii "$3") SrcErr.eof
      (by decide) rfl).1 _ rfl,
   (two_path_dispatch (fun s => s) (ascii "PING\r") (ascii "$3") SrcErr.eof
      (by decide) rfl).1 _ rfl⟩

/-- C12: the declared count 0. On every input whose first line is `*0\r\n`
`parseRequest` reads one argument: when `readArgument` fails on what follows
(the source being exhausted included), `parseRequest` returns that error; and
whatever follows the header, `parseRequest` returns no `Request` (when the
argument is read, the allocation of `args` with the length -1 panics). -/
theorem zero_count_never_decodes (uni : List Nat → List Nat) (c : List Nat) (e : SrcErr) :
    (∀ err r2, readArgument ⟨c, e⟩ = (Except.error err, r2) →
        parseRequest uni ⟨ascii "*0\r\n" ++ c, e⟩ = (Outcome.error err, r2))
      ∧ (∀ a r2, readArgument ⟨c, e⟩ = (Except.ok a, r2) →
        parseRequest uni ⟨ascii "*0\r\n" ++ c, e⟩
          = (Outcome.panic "makeslice: len out of range", r2))
      ∧ (∀ req, (parseRequest uni ⟨ascii "*0\r\n" ++ c, e⟩).1 ≠ Outcome.ok req)
      ∧ parseRequest uni ⟨ascii "*0\r\n", e⟩
        = (Outcome.error (malformed "$<argumentLength>" []), ⟨[], e⟩) := by
  have h := parseRequest_zero_count uni c e
  have hshape : ascii "*0\r\n" ++ c = 0x2A :: decimal 0 ++ [0x0D, 0x0A] ++ c := rfl
  rw [← hshape] at h
  refine ⟨?_, ?_, ?_, ?_⟩
  · intro err r2 hA
    rw [h, hA]
  · intro a r2 hA
    rw [h, hA]
  · intro req
    rw [h]
    split <;> simp
  · have h0 := parseRequest_zero_count uni [] e
    have hshape0 : ascii "*0\r\n" = 0x2A :: decimal 0 ++ [0x0D, 0x0A] ++ [] := rfl
    rw [← hshape0] at h0
    rw [h0, readArgument_header_fail [] e (by simp)]

/-- The cases of C12: after `*0\r\n` the end of the source and the line `PING`
give the error of `readArgument`; so does a truncated argument. -/
theorem zero_count_never_decodes_witness :
    parseRequest (fun s => s) ⟨ascii "*0\r\n", SrcErr.eof⟩
        = (Outcome.error (malformed "$<argumentLength>" []), ⟨[], SrcErr.eof⟩)
      ∧ parseRequest (fun s => s) ⟨ascii "*0\r\n" ++ ascii "PING\r\n", SrcErr.eof⟩
        = (Outcome.error (malformed "$<argumentSize>" (ascii "PING\r\n")), ⟨[], SrcErr.eof⟩)
      ∧ parseRequest (fun s => s) ⟨ascii "*0\r\n" ++ ascii "$4\r\nPI", SrcErr.eof⟩
        = (Outcome.error (malformedLength 4 2), ⟨[], SrcErr.eof⟩) :=
  ⟨(zero_count_never_decodes (fun s => s) [] SrcErr.eof).2.2.2,
   (zero_count_never_decodes (fun s => s) (ascii "PING\r\n") SrcErr.eof).1 _ _ rfl,
   (zero_count_never_decodes (fun s => s) (ascii "$4\r\nPI") SrcErr.eof).1 _ _ rfl⟩

/-- C13, at a concrete input: the raw line `\rSET foo\r\n` is decoded with the
name `set`, the leading carriage return having been removed; it is not decoded
with the name `\rset` that splitting the line without its trailing `\r\n`
alone would give. The same holds when the line is the first line read by
`parseRequest`. -/
theorem leading_carriage_return_is_trimmed :
    readInline (fun s => s) (ascii "\rSET foo\r\n")
        = Outcome.ok { name := ascii "set", args := [ascii "foo"] }
      ∧ Split (ascii "\rSET foo") 0x20 = [ascii "\rSET", ascii "foo"]
      ∧ readInline (fun s => s) (ascii "\rSET foo\r\n")
        ≠ Outcome.ok { name := ascii "\rset", args := [ascii "foo"] }
      ∧ (parseRequest (fun s => s) ⟨ascii "\rSET foo\r\n", SrcErr.eof⟩).1
        = Outcome.ok { name := ascii "set", args := [ascii "foo"] } := by
  refine ⟨rfl, rfl, ?_, rfl⟩
  decide

/-- C13 as amended. `readInline` removes from the raw line its leading run and
its trailing run of carriage returns and newlines and nothing else: when the
line is `pre ++ core ++ post` with `pre` and `post` made of carriage returns
and newlines and `core` neither beginning nor ending with one, the tokens are
those of `core` split on the single space, the first one lower-cased being the
name and the others the arguments. Every raw line has such a decomposition. -/
theorem readInline_trims_both_ends (uni : List Nat → List Nat) (pre core post : List Nat)
    (hpre : ∀ b ∈ pre, isCRLF b = true) (hpost : ∀ b ∈ post, isCRLF b = true)
    (hhead : ∀ b ∈ core.head?, isCRLF b = false)
    (hlast : ∀ b ∈ core.getLast?, isCRLF b = false) :
    (∃ t0 rest, Split core 0x20 = t0 :: rest
        ∧ readInline uni (pre ++ core ++ post)
          = Outcome.ok { name := ToLower uni t0, args := rest })
      ∧ (∀ buf : List Nat, ∃ pre' core' post', buf = pre' ++ core' ++ post'
          ∧ (∀ b ∈ pre', isCRLF b = true) ∧ (∀ b ∈ post', isCRLF b = true)
          ∧ (∀ b ∈ core'.head?, isCRLF b = false)
          ∧ (∀ b ∈ core'.getLast?, isCRLF b = false)) := by
  refine ⟨?_, Trim_decompose⟩
  have hT := Trim_core pre core post hpre hpost hhead hlast
  cases hS : Split core 0x20 with
  | nil => exact absurd hS (splitAux_ne_nil 0x20 [] core)
  | cons t0 rest =>
    refine ⟨t0, rest, rfl, ?_⟩
    simp only [readInline, hT, hS]

/-- The example of C13: in `\rSET foo\r\n` the leading `\r` and the trailing
`\r\n` are removed, the tokens are `SET` and `foo`, the name is `set`. -/
theorem readInline_trims_both_ends_witness :
    ∃ t0 rest, Split (ascii "SET foo") 0x20 = t0 :: rest
      ∧ readInline (fun s => s) (ascii "\r" ++ ascii "SET foo" ++ ascii "\r\n")
        = Outcome.ok { name := ToLower (fun s => s) t0, args := rest } :=
  (readInline_trims_both_ends (fun s => s) (ascii "\r") (ascii "SET foo") (ascii "\r\n")
    (by decide) (by decide) (by decide) (by decide)).1

/-- C14: `readInline` is total and never fails. For every string the list of
tokens is not empty, so `tab[0]` is in range and `readInline` returns a
`Request`. `parseRequest` therefore never returns the malformed-framing error,
and every first line that ends in its only newline and is not scanned as a
frame header gives a `Request`, what follows the line staying unread. -/
theorem readInline_never_fails (uni : List Nat → List Nat) :
    (∀ buf, Split (Trim buf) 0x20 ≠ [] ∧ ∃ req, readInline uni buf = Outcome.ok req)
      ∧ (∀ (r : Reader) (got : List Nat),
          (parseRequest uni r).1 ≠ Outcome.error (malformed "*<numberOfArguments>" got))
      ∧ (∀ (l s : List Nat) (e : SrcErr), 0x0A ∉ l → Sscanf 0x2A (l ++ [0x0A]) = none →
          ∃ req, parseRequest uni ⟨l ++ 0x0A :: s, e⟩ = (Outcome.ok req, ⟨s, e⟩)) := by
  refine ⟨fun buf => ⟨splitAux_ne_nil 0x20 [] (Trim buf), readInline_ok uni buf⟩,
    parseRequest_not_framing uni, ?_⟩
  intro l s e hl hS
  obtain ⟨req, hreq⟩ := readInline_ok uni (l ++ [0x0A])
  refine ⟨req, ?_⟩
  rw [parseRequest_dispatch uni l s e hl hS, hreq]

/-- The examples of C14: the empty string, a lone newline, `\r\n` and three
spaces all give a `Request`; three spaces give the empty name and three empty
arguments. The first line `***` is decoded as an inline request. -/
theorem readInline_never_fails_witness :
    (∃ req, readInline (fun s => s) [] = Outcome.ok req)
      ∧ (∃ req, readInline (fun s => s) (ascii "\n") = Outcome.ok req)
      ∧ (∃ req, readInline (fun s => s) (ascii "\r\n") = Outcome.ok req)
      ∧ (∃ req, readInline (fun s => s) (ascii "   ") = Outcome.ok req)
      ∧ readInline (fun s => s) (ascii "   ")
        = Outcome.ok { name := [], args := [[], [], []] }
      ∧ (∃ req, parseRequest (fun s => s) ⟨ascii "***\r" ++ 0x0A :: [], SrcErr.eof⟩
        = (Outcome.ok req, ⟨[], SrcErr.eof⟩)) :=
  ⟨((readInline_never_fails (fun s => s)).1 []).2,
   ((readInline_never_fails (fun s => s)).1 (ascii "\n")).2,
   ((readInline_never_fails (fun s => s)).1 (ascii "\r\n")).2,
   ((readInline_never_fails (fun s => s)).1 (ascii "   ")).2,
   rfl,
   (readInline_never_fails (fun s => s)).2.2 (ascii "***\r") [] SrcErr.eof (by decide) rfl⟩

/-- C15: soundness of framed decoding. When `parseRequest` returns a `Request`
on an input whose first line is scanned as a frame header with the count `N`,
then `N >= 1`, there are `N-1` arguments, and the input is the first line
followed by exactly `N` argument records and by what the call leaves unread;
each record is a header line, a payload and `\r\n`, the header declaring by the
scan of `$%d\r` the length of the payload; the payloads are, in order, the first
argument (the name before lower-casing) and the returned arguments. -/
theorem framed_decoding_sound (uni : List Nat → List Nat) (r r' : Reader) (req : Request)
    (N : Int) (hN : Sscanf 0x2A (r.ReadString 0x0A).1.1 = some N)
    (hok : parseRequest uni r = (Outcome.ok req, r')) :
    1 ≤ N ∧ (req.args.length : Int) = N - 1
      ∧ ∃ (first : List Nat) (recs : List (List Nat × List Nat)),
          r.buf = (r.ReadString 0x0A).1.1 ++ recordsBytes recs ++ r'.buf
          ∧ (recs.length : Int) = N
          ∧ recs.map Prod.snd = first :: req.args
          ∧ req.name = ToLower uni first
          ∧ ∀ rec ∈ recs, RecordOk rec := by
  obtain ⟨hmk, first, recs, hbuf, hrl, hmap, hname, hall, _⟩ :=
    parseRequest_framed_ok uni r r' req N hN hok
  obtain ⟨hlo, hhi⟩ := Sscanf_range _ _ _ hN
  obtain ⟨hnn, hfit⟩ := makeslice_ok hmk
  have hargs : req.args.length + 1 = recs.length := by
    have := congrArg List.length hmap
    simpa using this.symm
  have hw : wrapInt (N - 1) = N - 1 ∧ 1 ≤ N := by
    unfold sliceHeaderSize maxAlloc at hfit
    have hwdef : wrapInt (N - 1) = (N - 1 + 2 ^ 63) % 2 ^ 64 - 2 ^ 63 := rfl
    generalize wrapInt (N - 1) = w at hnn hfit hwdef ⊢
    omega
  refine ⟨hw.2, ?_, first, recs, hbuf, ?_, hmap, hname, hall⟩
  · rw [hw.1] at hrl
    omega
  · rw [hw.1] at hrl
    omega

/-- The request `*2 $3 GET $1 k` followed by `junk`: the count is 2, one
argument is returned, and the two records `$3 GET` and `$1 k` are what lies
between the first line and `junk`. -/
theorem framed_decoding_sound_witness :
    (1 : Int) ≤ 2 ∧ (([ascii "k"] : List (List Nat)).length : Int) = 2 - 1
      ∧ ∃ (first : List Nat) (recs : List (List Nat × List Nat)),
          ascii "*2\r\n$3\r\nGET\r\n$1\r\nk\r\njunk"
            = ascii "*2\r\n" ++ recordsBytes recs ++ ascii "junk"
          ∧ (recs.length : Int) = 2
          ∧ recs.map Prod.snd = first :: [ascii "k"]
          ∧ ascii "get" = ToLower (fun s => s) first
          ∧ ∀ rec ∈ recs, RecordOk rec :=
  framed_decoding_sound (fun s => s) ⟨ascii "*2\r\n$3\r\nGET\r\n$1\r\nk\r\njunk", SrcErr.eof⟩
    ⟨ascii "junk", SrcErr.eof⟩ { name := ascii "get", args := [ascii "k"] } 2 rfl rfl

/-- C16: a negative declared argument length never yields an argument. For
`M = -k` with `1 <= k <= 2^63` (the negative values of `int`) and every
continuation, `readArgument` on `$M\r\n` followed by the continuation returns
the length-mismatch error whose declared length is `M` and whose length got is
0, the continuation staying unread. So a framed request containing such a
header does not decode: after a first line scanned as a frame header with the
count `N` and `pre.length < N` records that `readArgument` accepts,
`parseRequest` returns no `Request`; it returns that length-mismatch error when
the header is that of the first argument or `make` allocates the `N-1` entries
of `args`. -/
theorem negative_length_rejected (uni : List Nat → List Nat) (k : Nat) (cont : List Nat)
    (e : SrcErr) (l : List Nat) (N : Int) (pre : List (List Nat × List Nat))
    (hk1 : 1 ≤ k) (hk : k ≤ 2 ^ 63) (hl : 0x0A ∉ l)
    (hS : Sscanf 0x2A (l ++ [0x0A]) = some N)
    (hpre : ∀ rec ∈ pre, RecordOk rec) (hn : (pre.length : Int) < N) :
    readArgument ⟨0x24 :: 0x2D :: decimal k ++ [0x0D, 0x0A] ++ cont, e⟩
        = (Except.error (Err.malformedLength (-(k : Int)) 0), ⟨cont, e⟩)
      ∧ (∀ req, (parseRequest uni ⟨l ++ 0x0A :: (recordsBytes pre
            ++ (0x24 :: 0x2D :: decimal k ++ [0x0D, 0x0A] ++ cont)), e⟩).1 ≠ Outcome.ok req)
      ∧ (pre = [] ∨ sliceHeaderSize * (N - 1).toNat ≤ maxAlloc →
          (parseRequest uni ⟨l ++ 0x0A :: (recordsBytes pre
            ++ (0x24 :: 0x2D :: decimal k ++ [0x0D, 0x0A] ++ cont)), e⟩).1
            = Outcome.error (Err.malformedLength (-(k : Int)) 0)) := by
  have h := readArgument_negative k cont e hk1 hk
  obtain ⟨herr, hpanic⟩ := parseRequest_records_error uni l N pre _ e _ _ hl hS hpre hn h
  obtain ⟨hlo, hhi⟩ := Sscanf_range _ _ _ hS
  have hw : wrapInt (N - 1) = N - 1 := by
    apply wrapInt_of_range
    · omega
    · omega
  refine ⟨h, ?_, ?_⟩
  · intro req
    by_cases hcase : pre = [] ∨ ¬ makeslicePanics (wrapInt (N - 1))
    · rw [herr hcase]
      simp
    · have h1 : ¬ pre = [] := fun hp => hcase (Or.inl hp)
      have h2 : makeslicePanics (wrapInt (N - 1)) := by
        by_contra hc
        exact hcase (Or.inr hc)
      rw [hpanic h1 h2]
      simp
  · intro hmk
    have hcase : pre = [] ∨ ¬ makeslicePanics (wrapInt (N - 1)) := by
      rcases hmk with hp | hfit
      · exact Or.inl hp
      · right
        rw [hw]
        have hnn : 0 ≤ N - 1 := by omega
        have := not_makeslicePanics (N - 1).toNat hfit
        rwa [Int.toNat_of_nonneg hnn] at this
    rw [herr hcase]
    rfl

/-- The header `$-1`: `readArgument` answers with the length-mismatch error
(declared -1, got 0) and leaves `foo\r\n` unread; as the header of the second
argument of the framed request `*2 $3 GET` it makes `parseRequest` return that
error, and no `Request`. -/
theorem negative_length_rejected_witness :
    readArgument ⟨ascii "$-1\r\n" ++ ascii "foo\r\n", SrcErr.eof⟩
        = (Except.error (Err.malformedLength (-1) 0), ⟨ascii "foo\r\n", SrcErr.eof⟩)
      ∧ (∀ req, (parseRequest (fun s => s)
          ⟨ascii "*2\r\n$3\r\nGET\r\n$-1\r\nfoo\r\n", SrcErr.eof⟩).1 ≠ Outcome.ok req)
      ∧ (parseRequest (fun s => s)
          ⟨ascii "*2\r\n$3\r\nGET\r\n$-1\r\nfoo\r\n", SrcErr.eof⟩).1
        = Outcome.error (Err.malformedLength (-1) 0) :=
  have hrec : ∀ rec ∈ [(ascii "$3\r\n", ascii "GET")], RecordOk rec := by
    intro rec hrec
    rw [List.mem_singleton.1 hrec]
    exact ⟨⟨ascii "$3\r", rfl, by decide⟩, rfl⟩
  have h := negative_length_rejected (fun s => s) 1 (ascii "foo\r\n") SrcErr.eof
    (ascii "*2\r") 2 [(ascii "$3\r\n", ascii "GET")] (by decide) (by decide) (by decide)
    rfl hrec (by decide)
  ⟨h.1, h.2.1, h.2.2 (Or.inr (by decide))⟩

end Redis
